import Mathlib

set_option maxRecDepth 100000

/-!
Verification development for the `extractoPDFtoExcel` repository
(`src/app.py`, `src/operaciones_fraccionadas.py`, `src/utils.py`).

The Python sources are shallowly embedded as executable Lean functions over
`List Char` / `String`, with monetary amounts modelled as exact rationals
(`ℚ`).  Python's binary floats are abstracted by `ℚ`: every amount handled by
the repository is a decimal literal of at most two fraction digits, and all
claims compare values that are parsed the same way on both sides, so the
abstraction is exact for the properties stated here.

Each Python regular expression used by the sources is embedded as a dedicated
matcher that reproduces the backtracking behaviour (greedy/lazy quantifier
order, alternation order, leftmost search, non-overlapping `findall`) of
Python's `re` module for that particular pattern.
-/

namespace Extracto

abbrev Chars := List Char

/-- Python whitespace class `\s` / `str.strip()` set, restricted to the ASCII
whitespace characters (the sources never produce the rarer Unicode spaces:
NFKC plus the `\xa0` replacement in the normalizer map them to `' '`). -/
def pyWs (c : Char) : Bool :=
  c = ' ' || c = '\t' || c = '\n' || c = '\r' || c = '\x0b' || c = '\x0c'

/-- Python `str.strip()`. -/
def stripC (cs : Chars) : Chars :=
  ((cs.dropWhile pyWs).reverse.dropWhile pyWs).reverse

/-- ASCII lower-casing plus the accented letters that appear in the sources;
models Python `str.lower()` on the alphabet the repository manipulates. -/
def pyLowerChar (c : Char) : Char :=
  if 'A' ≤ c ∧ c ≤ 'Z' then Char.ofNat (c.toNat + 32)
  else if c = 'Á' then 'á' else if c = 'É' then 'é' else if c = 'Í' then 'í'
  else if c = 'Ó' then 'ó' else if c = 'Ú' then 'ú' else if c = 'Ü' then 'ü'
  else if c = 'Ñ' then 'ñ' else c

/-- ASCII upper-casing plus the accented letters that appear in the sources;
models Python `str.upper()` on the alphabet the repository manipulates. -/
def pyUpperChar (c : Char) : Char :=
  if 'a' ≤ c ∧ c ≤ 'z' then Char.ofNat (c.toNat - 32)
  else if c = 'á' then 'Á' else if c = 'é' then 'É' else if c = 'í' then 'Í'
  else if c = 'ó' then 'Ó' else if c = 'ú' then 'Ú' else if c = 'ü' then 'Ü'
  else if c = 'ñ' then 'Ñ' else c

def pyLowerC (cs : Chars) : Chars := cs.map pyLowerChar

def pyUpperC (cs : Chars) : Chars := cs.map pyUpperChar

/-- Case-insensitive character comparison, as used by `re.IGNORECASE`. -/
def ciEq (a b : Char) : Bool := pyLowerChar a = pyLowerChar b

/-- Split on a single character, keeping empty segments
(Python `str.split('\n')`). -/
def splitOnC (sep : Char) : Chars → List Chars
  | [] => [[]]
  | c :: cs =>
    let r := splitOnC sep cs
    if c = sep then [] :: r
    else match r with
      | [] => [[c]]
      | l :: ls => (c :: l) :: ls

def joinWithC (sep : Chars) : List Chars → Chars
  | [] => []
  | [l] => l
  | l :: ls => l ++ sep ++ joinWithC sep ls

/-- Python `str.split()` with no argument: split on whitespace runs,
dropping empty tokens. -/
def splitWsC (cs : Chars) : List Chars :=
  splitWsGo cs.length cs
where
  splitWsGo : ℕ → Chars → List Chars
    | 0, _ => []
    | _, [] => []
    | fuel + 1, cs =>
      let cs' := cs.dropWhile pyWs
      match cs'.takeWhile (fun c => ¬ pyWs c) with
      | [] => []
      | tok => tok :: splitWsGo fuel (cs'.dropWhile (fun c => ¬ pyWs c))

/-- First index (if any) at which `pat` occurs as a sublist of `cs`,
comparing characters with `eq` (Python `str.find` / `in`, optionally
case-insensitive). -/
def findSubIdx (eq : Char → Char → Bool) (pat : Chars) : Chars → Option ℕ
  | [] => if pat = [] then some 0 else none
  | c :: cs =>
    if matchesAt eq pat (c :: cs) then some 0
    else (findSubIdx eq pat cs).map (· + 1)
where
  matchesAt (eq : Char → Char → Bool) : Chars → Chars → Bool
    | [], _ => true
    | _ :: _, [] => false
    | p :: ps, c :: cs => eq p c && matchesAt eq ps cs

/-- Python `needle in haystack` (case-sensitive substring test). -/
def containsSub (pat cs : Chars) : Bool := (findSubIdx (· = ·) pat cs).isSome

/-- Case-insensitive substring test. -/
def containsSubCI (pat cs : Chars) : Bool := (findSubIdx ciEq pat cs).isSome

def isDigitC (c : Char) : Bool := c.isDigit

/-- Length of the leading digit run. -/
def digitRun : Chars → ℕ
  | [] => 0
  | c :: cs => if isDigitC c then digitRun cs + 1 else 0

/-- Numeric value of a digit list. -/
def digitsVal (cs : Chars) : ℕ :=
  cs.foldl (fun a c => a * 10 + (c.toNat - '0'.toNat)) 0

/-!  ## Python `float()` (decimal-literal fragment)

`pyFloatQ` models the conversion `float(s)` on optionally signed decimal
literals (`digits`, `digits.digits`, `.digits`, `digits.`), after stripping
surrounding whitespace; any other shape yields `none` (Python raises
`ValueError`).  Python additionally accepts exponents, `inf`/`nan` and digit
underscores, none of which can reach the call sites of this repository's
token shapes. -/

def pyFloatQ (cs : Chars) : Option ℚ :=
  let t := stripC cs
  match t with
  | '-' :: r => (pyFloatMag r).map (fun q => -q)
  | '+' :: r => pyFloatMag r
  | r => pyFloatMag r
where
  pyFloatMag (r : Chars) : Option ℚ :=
    let d1 := r.takeWhile isDigitC
    let rest := r.dropWhile isDigitC
    match rest with
    | [] => if d1 = [] then none else some (mkRat (digitsVal d1) 1)
    | '.' :: r2 =>
      let d2 := r2.takeWhile isDigitC
      if r2.dropWhile isDigitC = [] ∧ ¬ (d1 = [] ∧ d2 = []) then
        some (mkRat (digitsVal d1 * 10 ^ d2.length + digitsVal d2)
          (10 ^ d2.length))
      else none
    | _ => none

/-!  ## The robust monetary pattern `PATRON_MONETARIO` (app.py line 29)

`(?:-)?(?:\d{1,3}(?:[\.\s]\d{3})*(?:[\.,]\d{2})|\d+[\.,]\d{2})(?:-)?`

`monParses cs` lists the lengths of all ways the pattern can match a prefix
of `cs`, in the backtracking preference order of Python's `re` engine
(greedy quantifiers longest-first, first alternative first).  The engine's
reported match at a position is the head of this list; an anchored
`^...$`/fullmatch succeeds iff the whole length occurs in the list. -/

/-- One repetition `[\.\s]\d{3}` of the thousands group. -/
def milStep : Chars → Option (ℕ × Chars)
  | c :: a :: b :: d :: r =>
    if (c = '.' || pyWs c) && isDigitC a && isDigitC b && isDigitC d then
      some (4, r) else none
  | _ => none

/-- States reachable by the greedy star over `[\.\s]\d{3}`, in ascending
repetition count: pairs of (consumed length so far, rest). -/
def milStates : ℕ → ℕ → Chars → List (ℕ × Chars)
  | 0, acc, cs => [(acc, cs)]
  | fuel + 1, acc, cs =>
    (acc, cs) ::
      (match milStep cs with
       | some (k, rest) => milStates fuel (acc + k) rest
       | none => [])

/-- The decimal tail `[\.,]\d{2}`. -/
def decTail : Chars → Option (ℕ × Chars)
  | s :: a :: b :: r =>
    if (s = '.' || s = ',') && isDigitC a && isDigitC b then some (3, r)
    else none
  | _ => none

/-- Parses of the first alternative `\d{1,3}(?:[\.\s]\d{3})*(?:[\.,]\d{2})`.
The greedy `\d{1,3}` must take the whole leading digit run (stopping earlier
leaves a digit where a separator is required), so the run length must be
1–3; the star is then enumerated greedily (most repetitions first). -/
def alt1Parses (cs : Chars) : List (ℕ × Chars) :=
  let d := digitRun cs
  if 1 ≤ d ∧ d ≤ 3 then
    ((milStates cs.length d (cs.drop d)).reverse).filterMap
      (fun p =>
        match decTail p.2 with
        | some (k, r2) => some (p.1 + k, r2)
        | none => none)
  else []

/-- Parses of the second alternative `\d+[\.,]\d{2}`: the greedy `\d+` must
likewise take the whole digit run. -/
def alt2Parses (cs : Chars) : List (ℕ × Chars) :=
  let d := digitRun cs
  if 1 ≤ d then
    match decTail (cs.drop d) with
    | some (k, r) => [(d + k, r)]
    | none => []
  else []

/-- All parse lengths of `PATRON_MONETARIO` at the head of `cs`, in the
regex engine's preference order. -/
def monParses (cs : Chars) : List ℕ :=
  match cs with
  | '-' :: rest => (bodyWithTail rest).map (· + 1)
  | _ => bodyWithTail cs
where
  bodyWithTail (cs : Chars) : List ℕ :=
    (alt1Parses cs ++ alt2Parses cs).flatMap
      (fun p =>
        match p.2 with
        | '-' :: _ => [p.1 + 1, p.1]
        | _ => [p.1])

/-- The match length `re` reports for `PATRON_MONETARIO` at this position
(if any). -/
def matchMonAt (cs : Chars) : Option ℕ := (monParses cs).head?

/-- `re.match('^(?:PATRON_MONETARIO)$', token)`: some parse consumes the
whole token. -/
def fullMatchMon (cs : Chars) : Bool := (monParses cs).contains cs.length

/-- `re.findall(PATRON_MONETARIO, cs)`: leftmost, non-overlapping matches. -/
def findAllMon (cs : Chars) : List Chars :=
  findAllMonGo cs.length cs
where
  findAllMonGo : ℕ → Chars → List Chars
    | 0, _ => []
    | _, [] => []
    | fuel + 1, c :: rest =>
      match matchMonAt (c :: rest) with
      | some L => (c :: rest).take L :: findAllMonGo fuel ((c :: rest).drop L)
      | none => findAllMonGo fuel rest

/-- `re.search(PATRON_MONETARIO, cs)`: first match, as a string. -/
def searchMon (cs : Chars) : Option Chars :=
  searchMonGo cs.length cs
where
  searchMonGo : ℕ → Chars → Option Chars
    | 0, _ => none
    | _, [] => none
    | fuel + 1, c :: rest =>
      match matchMonAt (c :: rest) with
      | some L => some ((c :: rest).take L)
      | none => searchMonGo fuel rest

/-!  ## `ExtractorExtractoBancario.parsear_importe` (app.py lines 50–67) -/

/-- The string transformations `parsear_importe` applies before calling
`float`: strip, drop `€` and spaces, parenthesised negative, trailing
minus, thousands dot removal, decimal comma. -/
def importeTransform (cs : Chars) : Chars :=
  let s1 := (stripC cs).filter (fun c => c ≠ '€')
  let s2 := s1.filter (fun c => c ≠ ' ')
  let s3 :=
    if s2.head? = some '(' ∧ s2.getLast? = some ')' then
      '-' :: (s2.drop 1).dropLast
    else s2
  let s4 :=
    if s3.getLast? = some '-' ∧ s3.head? ≠ some '-' then
      '-' :: s3.dropLast
    else s3
  let s5 :=
    if s4.contains ',' ∧ s4.contains '.' then s4.filter (fun c => c ≠ '.')
    else s4
  s5.map (fun c => if c = ',' then '.' else c)

def parsearImporteC (cs : Chars) : ℚ :=
  if cs = [] then 0
  else (pyFloatQ (importeTransform cs)).getD 0

def parsearImporte (valor : String) : ℚ := parsearImporteC valor.toList

end Extracto

namespace Extracto

/-!  ## The simple amount pattern `\d+[,\.]\d{2}`

Used throughout `operaciones_fraccionadas.py` and in app.py's method-4
concept lookahead.  The greedy `\d+` must take the whole leading digit run
(stopping earlier leaves a digit where the separator is required), so the
pattern has at most one parse at a position. -/

def matchSimpleAt (cs : Chars) : Option ℕ :=
  let d := digitRun cs
  if 1 ≤ d then
    match decTail (cs.drop d) with
    | some (k, _) => some (d + k)
    | none => none
  else none

/-- `re.findall(r'\d+[,\.]\d{2}', cs)`. -/
def findAllSimple (cs : Chars) : List Chars :=
  findAllSimpleGo cs.length cs
where
  findAllSimpleGo : ℕ → Chars → List Chars
    | 0, _ => []
    | _, [] => []
    | fuel + 1, c :: rest =>
      match matchSimpleAt (c :: rest) with
      | some L => (c :: rest).take L :: findAllSimpleGo fuel ((c :: rest).drop L)
      | none => findAllSimpleGo fuel rest

/-- `re.search(r'(\d+[,\.]\d{2})', cs)`: first match. -/
def searchSimple (cs : Chars) : Option Chars :=
  searchSimpleGo cs.length cs
where
  searchSimpleGo : ℕ → Chars → Option Chars
    | 0, _ => none
    | _, [] => none
    | fuel + 1, c :: rest =>
      match matchSimpleAt (c :: rest) with
      | some L => some ((c :: rest).take L)
      | none => searchSimpleGo fuel rest

/-- Naive float conversion `float(tok.replace(',', '.'))` used by
`operaciones_fraccionadas.py` on tokens matched by `\d+[,\.]\d{2}` (never
fails on such tokens; any failure would be caught by the surrounding
`except` and skip the candidate, which we model by `getD 0`). -/
def parseSimple (cs : Chars) : ℚ :=
  (pyFloatQ (cs.map (fun c => if c = ',' then '.' else c))).getD 0

/-!  ## Date patterns -/

/-- `\d{2}\.\d{2}\.\d{4}` anchored at the head. -/
def isDate10At : Chars → Bool
  | a :: b :: s1 :: c :: d :: s2 :: e :: f :: g :: h :: _ =>
    isDigitC a && isDigitC b && s1 = '.' && isDigitC c && isDigitC d &&
      s2 = '.' && isDigitC e && isDigitC f && isDigitC g && isDigitC h
  | _ => false

/-- `\d{2}[\./\-]\d{2}[\./\-]\d{4}` anchored at the head. -/
def isDateFlexAt : Chars → Bool
  | a :: b :: s1 :: c :: d :: s2 :: e :: f :: g :: h :: _ =>
    isDigitC a && isDigitC b && (s1 = '.' || s1 = '/' || s1 = '-') &&
      isDigitC c && isDigitC d && (s2 = '.' || s2 = '/' || s2 = '-') &&
      isDigitC e && isDigitC f && isDigitC g && isDigitC h
  | _ => false

/-- `re.search(r'(\d{2}\.\d{2}\.\d{4})', cs)`: first date, as a string. -/
def searchDate10 (cs : Chars) : Option Chars :=
  searchDate10Go cs.length cs
where
  searchDate10Go : ℕ → Chars → Option Chars
    | 0, _ => none
    | _, [] => none
    | fuel + 1, c :: rest =>
      if isDate10At (c :: rest) then some ((c :: rest).take 10)
      else searchDate10Go fuel rest

/-- Index of the first position where `p` holds for the suffix starting
there (generic leftmost regex search driver). -/
def searchPos (p : Chars → Bool) (cs : Chars) : Option ℕ :=
  searchPosGo p cs.length 0 cs
where
  searchPosGo (p : Chars → Bool) : ℕ → ℕ → Chars → Option ℕ
    | 0, _, _ => none
    | fuel + 1, i, cs =>
      if p cs then some i
      else match cs with
        | [] => none
        | _ :: rest => searchPosGo p fuel (i + 1) rest

/-!  ## Merchant-marker patterns -/

/-- `B\.?B\.?V\.?A\.?` (IGNORECASE) anchored at the head.  The optional
dots are deterministic: a present `'.'` must be consumed since the next
required character is a letter. -/
def bbvaAt (cs : Chars) : Bool :=
  match skipDot (matchCi 'b' cs) with
  | none => false
  | some r1 =>
    match skipDot (matchCi 'b' r1) with
    | none => false
    | some r2 =>
      match skipDot (matchCi 'v' r2) with
      | none => false
      | some r3 => (matchCi 'a' r3).isSome
where
  matchCi (c : Char) : Chars → Option Chars
    | x :: r => if ciEq x c then some r else none
    | [] => none
  skipDot : Option Chars → Option Chars
    | some ('.' :: r) => some r
    | o => o

/-- `CAJ\.LA\s*CAIXA` (IGNORECASE) anchored at the head. -/
def caixaAt (cs : Chars) : Bool :=
  match litCiAt "CAJ.LA".toList cs with
  | none => false
  | some r => (litCiAt "CAIXA".toList (r.dropWhile pyWs)).isSome
where
  litCiAt : Chars → Chars → Option Chars
    | [], cs => some cs
    | _ :: _, [] => none
    | p :: ps, c :: cs => if ciEq p c then litCiAt ps cs else none

/-- Case-insensitive literal match at the head, returning the rest. -/
def litCi : Chars → Chars → Option Chars
  | [], cs => some cs
  | _ :: _, [] => none
  | p :: ps, c :: cs => if ciEq p c then litCi ps cs else none

/-!  ## The plazo pattern (app.py lines 175, 252, 457)

`(?:Plazo\s*[:\-]?\s*(\d+\s*De\s*\d+)|PRÓXIMO\s*PLAZO\s*[:\-]?\s*(\d{2}[\./\-]\d{2}[\./\-]\d{4}))`
with IGNORECASE; the search returns group(1) if the first alternative
matched, else group(2).  All quantifiers here are deterministic (each
greedy run is followed by a character outside its class). -/

/-- Group `\d+\s*De\s*\d+` at the head: returns (matched text, rest). -/
def plazoGrp (cs : Chars) : Option Chars :=
  let d1 := cs.takeWhile isDigitC
  if d1 = [] then none
  else
    let r1 := cs.dropWhile isDigitC
    let w1 := r1.takeWhile pyWs
    let r2 := r1.dropWhile pyWs
    match r2 with
    | de1 :: de2 :: r3 =>
      if ciEq de1 'd' ∧ ciEq de2 'e' then
        let w2 := r3.takeWhile pyWs
        let r4 := r3.dropWhile pyWs
        let d2 := r4.takeWhile isDigitC
        if d2 = [] then none
        else some (d1 ++ w1 ++ [de1, de2] ++ w2 ++ d2)
      else none
    | _ => none

/-- `\s*[:\-]?\s*` (deterministic before a digit). -/
def sepColon (cs : Chars) : Chars :=
  let r := cs.dropWhile pyWs
  match r with
  | ':' :: r2 => r2.dropWhile pyWs
  | '-' :: r2 => r2.dropWhile pyWs
  | _ => r

/-- First alternative of the plazo pattern at the head. -/
def plazoAlt1At (cs : Chars) : Option Chars :=
  match litCi "Plazo".toList cs with
  | none => none
  | some r => plazoGrp (sepColon r)

/-- Second alternative of the plazo pattern at the head. -/
def plazoAlt2At (cs : Chars) : Option Chars :=
  match litCi "PRÓXIMO".toList cs with
  | none => none
  | some r =>
    match litCi "PLAZO".toList (r.dropWhile pyWs) with
    | none => none
    | some r2 =>
      let r3 := sepColon r2
      if isDateFlexAt r3 then some (r3.take 10) else none

/-- `re.search` for the plazo pattern: leftmost position, first
alternative preferred; returns the captured group. -/
def searchPlazo (cs : Chars) : Option Chars :=
  searchPlazoGo cs.length cs
where
  searchPlazoGo : ℕ → Chars → Option Chars
    | 0, _ => none
    | fuel + 1, cs =>
      match plazoAlt1At cs with
      | some g => some g
      | none =>
        match plazoAlt2At cs with
        | some g => some g
        | none =>
          match cs with
          | [] => none
          | _ :: rest => searchPlazoGo fuel rest

/-!  ## `normalizar_plazo` (app.py lines 69–77) -/

/-- `re.sub(r"(\d)\s*De\s*(\d)", r"\1 De \2", valor, flags=IGNORECASE)`. -/
def plazoDeSub (cs : Chars) : Chars :=
  plazoDeSubGo cs.length cs
where
  deMatch : Chars → Option (Char × Char × Chars)
    | d1 :: r =>
      if isDigitC d1 then
        match (r.dropWhile pyWs) with
        | de1 :: de2 :: r2 =>
          if ciEq de1 'd' ∧ ciEq de2 'e' then
            match r2.dropWhile pyWs with
            | d2 :: r3 => if isDigitC d2 then some (d1, d2, r3) else none
            | [] => none
          else none
        | _ => none
      else none
    | [] => none
  plazoDeSubGo : ℕ → Chars → Chars
    | 0, cs => cs
    | _, [] => []
    | fuel + 1, c :: r =>
      match deMatch (c :: r) with
      | some (d1, d2, rest) => d1 :: ' ' :: 'D' :: 'e' :: ' ' :: d2 :: plazoDeSubGo fuel rest
      | none => c :: plazoDeSubGo fuel r

/-- `re.sub(r"(\d{2})[\./\-](\d{2})[\./\-](\d{4})", r"\1.\2.\3", valor)`. -/
def dateDotSub (cs : Chars) : Chars :=
  dateDotSubGo cs.length cs
where
  dateDotSubGo : ℕ → Chars → Chars
    | 0, cs => cs
    | _, [] => []
    | fuel + 1, c :: r =>
      if isDateFlexAt (c :: r) then
        match c :: r with
        | a :: b :: _ :: d :: e :: _ :: f :: g :: h :: i :: rest =>
          a :: b :: '.' :: d :: e :: '.' :: f :: g :: h :: i :: dateDotSubGo fuel rest
        | cs => cs
      else c :: dateDotSubGo fuel r

def normalizarPlazoC (cs : Chars) : Chars :=
  if cs = [] then []
  else stripC (dateDotSub (plazoDeSub cs))

end Extracto

namespace Extracto

/-!  ## `ExtractorExtractoBancario.normalizar_texto` (app.py lines 31–48)

Step 1 of the source is `unicodedata.normalize('NFKC', texto)`.  It is
modelled as the identity: every input examined by the theorems below is
ASCII, on which NFKC is the identity, and the remaining steps are
insensitive to the NFKC-composition of the non-ASCII letters that can
occur in real statements. -/

def nfkc (cs : Chars) : Chars := cs

/-- `texto.replace('\r\n', '\n')`. -/
def replaceCRLF : Chars → Chars
  | [] => []
  | '\r' :: '\n' :: r => '\n' :: replaceCRLF r
  | c :: r => c :: replaceCRLF r

/-- Line-ending unification: `replace('\r\n','\n').replace('\r','\n')`. -/
def step2 (cs : Chars) : Chars :=
  (replaceCRLF cs).map (fun c => if c = '\r' then '\n' else c)

/-- Non-breaking spaces: `replace('\xa0',' ').replace(' ',' ')`
(both calls replace the same character). -/
def step3 (cs : Chars) : Chars :=
  cs.map (fun c => if c = '\xA0' then ' ' else c)

/-- Dash unification: `replace('–','-').replace('—','-')`. -/
def step4 (cs : Chars) : Chars :=
  cs.map (fun c => if c = '–' ∨ c = '—' then '-' else c)

/-- `(\d{2})[/\-](\d{2})[/\-](\d{4})` anchored at the head. -/
def isDateSlashAt : Chars → Bool
  | a :: b :: s1 :: c :: d :: s2 :: e :: f :: g :: h :: _ =>
    isDigitC a && isDigitC b && (s1 = '/' || s1 = '-') &&
      isDigitC c && isDigitC d && (s2 = '/' || s2 = '-') &&
      isDigitC e && isDigitC f && isDigitC g && isDigitC h
  | _ => false

/-- `re.sub(r'(\d{2})[/\-](\d{2})[/\-](\d{4})', r'\1.\2.\3', ·)`. -/
def step5 (cs : Chars) : Chars :=
  step5Go cs.length cs
where
  step5Go : ℕ → Chars → Chars
    | 0, cs => cs
    | _, [] => []
    | fuel + 1, x :: r =>
      if isDateSlashAt (x :: r) then
        match x :: r with
        | a :: b :: _ :: c :: d :: _ :: e :: f :: g :: h :: rest =>
          a :: b :: '.' :: c :: d :: '.' :: e :: f :: g :: h ::
            step5Go fuel rest
        | cs => cs
      else x :: step5Go fuel r

/-- `re.sub(r'(?<!\n)(\d{2}[\./\-]\d{2}[\./\-]\d{4})', r'\n\1', ·)`: insert
a line break before a date token not already preceded by one.  A position
where only the look-behind fails is not a match, so the scan advances a
single character there. -/
def step6 (cs : Chars) : Chars :=
  step6Go cs.length false cs
where
  step6Go : ℕ → Bool → Chars → Chars
    | 0, _, cs => cs
    | _, _, [] => []
    | fuel + 1, prevNL, x :: r =>
      if ¬ prevNL ∧ isDateFlexAt (x :: r) then
        '\n' :: ((x :: r).take 10 ++ step6Go fuel false ((x :: r).drop 10))
      else x :: step6Go fuel (x = '\n') r

/-- `re.sub(r'PROXIMO', 'PRÓXIMO', ·, flags=re.IGNORECASE)`. -/
def step7 (cs : Chars) : Chars :=
  step7Go cs.length cs
where
  step7Go : ℕ → Chars → Chars
    | 0, cs => cs
    | _, [] => []
    | fuel + 1, x :: r =>
      match litCi "PROXIMO".toList (x :: r) with
      | some rest => "PRÓXIMO".toList ++ step7Go fuel rest
      | none => x :: step7Go fuel r

/-- The horizontal-whitespace class `[ \t\f\v]`. -/
def isHWs (c : Char) : Bool :=
  c = ' ' || c = '\t' || c = '\x0c' || c = '\x0b'

/-- `re.sub(r'[ \t\f\v]+', ' ', linea)`. -/
def collapseF : ℕ → Chars → Chars
  | 0, cs => cs
  | _, [] => []
  | fuel + 1, c :: r =>
    if isHWs c then ' ' :: collapseF fuel (r.dropWhile isHWs)
    else c :: collapseF fuel r

def collapseHWs (cs : Chars) : Chars := collapseF cs.length cs

/-- Per-line cleanup `re.sub(r'[ \t\f\v]+', ' ', linea).strip()`. -/
def cleanLine (cs : Chars) : Chars := stripC (collapseHWs cs)

/-- Split into lines, clean each, drop empties, re-join. -/
def step8 (cs : Chars) : Chars :=
  joinWithC ['\n']
    (((splitOnC '\n' cs).map cleanLine).filter (fun l => ¬ l.isEmpty))

def normalizarTextoC (cs : Chars) : Chars :=
  if cs = [] then []
  else step8 (step7 (step6 (step5 (step4 (step3 (step2 (nfkc cs)))))))

def normalizarTexto (s : String) : String :=
  String.mk (normalizarTextoC s.toList)

end Extracto

namespace Extracto

/-!  ## Data model

`Operacion` mirrors the dict rows built by both fractioned-operations
extractors.  `metodo_extraccion` is set by `operaciones_fraccionadas.py`
only; the app.py extractor's dicts lack the key, modelled by `""`
(similarly its debug-only `debug_ctx` entry, which is empty with the debug
flag off, is omitted). -/

structure Operacion where
  fecha : String
  concepto : String
  importe_operacion : ℚ
  importe_pendiente : ℚ
  capital_amortizado : ℚ
  intereses : ℚ
  cuota_mensual : ℚ
  plazo : String
  importe_pendiente_despues : ℚ
  metodo_extraccion : String
deriving DecidableEq

structure OperacionPeriodo where
  fecha : String
  establecimiento : String
  localidad : String
  importe : ℚ
deriving DecidableEq

/-- `info` dict of `extraer_informacion_general`; the source stores
`limite_credito` as `str(parsear_importe(...))`, modelled by the parsed
rational itself. -/
structure InfoGeneral where
  titular : Option String
  periodo_inicio : Option String
  periodo_fin : Option String
  limite_credito : Option ℚ
deriving DecidableEq

/-- Literal (case-sensitive) prefix test. -/
def startsWithLit : Chars → Chars → Bool
  | [], _ => true
  | _ :: _, [] => false
  | p :: ps, c :: cs => p = c && startsWithLit ps cs

/-- First `some` produced by `f` along a list. -/
def firstSome {α β : Type} (f : α → Option β) : List α → Option β
  | [] => none
  | a :: as =>
    match f a with
    | some b => some b
    | none => firstSome f as

/-- `[n, n-1, ..., 1]` — greedy quantifier backtracking order. -/
def descRange (n : ℕ) : List ℕ := (List.range n).map (fun k => n - k)

/-- `[1, 2, ..., n]` — lazy quantifier backtracking order. -/
def ascRange1 (n : ℕ) : List ℕ := (List.range n).map (fun k => k + 1)

/-!  ## `extraer_informacion_general` (app.py lines 93–116) -/

/-- `([A-Z\s]+)\s+\d{5}-\d{2}` at the head: the greedy group must cover
the whole class run except a final whitespace character consumed by
`\s+`; returns the group. -/
def titularAt (cs : Chars) : Option Chars :=
  let run := cs.takeWhile (fun c => ('A' ≤ c ∧ c ≤ 'Z') || pyWs c)
  if 2 ≤ run.length ∧ pyWs (run.getLastD ' ') ∧ digits52 (cs.drop run.length)
  then some run.dropLast else none
where
  digits52 : Chars → Bool
    | a :: b :: c :: d :: e :: '-' :: f :: g :: _ =>
      isDigitC a && isDigitC b && isDigitC c && isDigitC d && isDigitC e &&
        isDigitC f && isDigitC g
    | _ => false

def searchTitular (cs : Chars) : Option Chars :=
  go cs.length cs
where
  go : ℕ → Chars → Option Chars
    | 0, _ => none
    | fuel + 1, cs =>
      match titularAt cs with
      | some g => some g
      | none =>
        match cs with
        | [] => none
        | _ :: rest => go fuel rest

/-- `(\d{2}\.\d{2}\.\d{4})\s*-\s*(\d{2}\.\d{2}\.\d{4})` at the head. -/
def periodoDatesAt (cs : Chars) : Option (Chars × Chars) :=
  if isDate10At cs then
    let r := (cs.drop 10).dropWhile pyWs
    match r with
    | '-' :: r2 =>
      let r3 := r2.dropWhile pyWs
      if isDate10At r3 then some (cs.take 10, r3.take 10) else none
    | _ => none
  else none

def searchPeriodoDates (cs : Chars) : Option (Chars × Chars) :=
  go cs.length cs
where
  go : ℕ → Chars → Option (Chars × Chars)
    | 0, _ => none
    | fuel + 1, cs =>
      match periodoDatesAt cs with
      | some g => some g
      | none =>
        match cs with
        | [] => none
        | _ :: rest => go fuel rest

/-- `L[ÍI]MITE.*?(PATRON_MONETARIO)` (IGNORECASE, no DOTALL) at the head:
after the keyword, the lazy gap runs to the first monetary match without
crossing a line break. -/
def limiteAt (cs : Chars) : Option Chars :=
  match litCi "L".toList cs with
  | none => none
  | some r1 =>
    match r1 with
    | c :: r2 =>
      if ciEq c 'Í' || ciEq c 'I' then
        match litCi "MITE".toList r2 with
        | none => none
        | some r3 => lazyMon r3.length r3
      else none
    | [] => none
where
  lazyMon : ℕ → Chars → Option Chars
    | 0, _ => none
    | fuel + 1, cs =>
      match matchMonAt cs with
      | some L => some (cs.take L)
      | none =>
        match cs with
        | [] => none
        | '\n' :: _ => none
        | _ :: rest => lazyMon fuel rest

def searchLimite (cs : Chars) : Option Chars :=
  go cs.length cs
where
  go : ℕ → Chars → Option Chars
    | 0, _ => none
    | fuel + 1, cs =>
      match limiteAt cs with
      | some g => some g
      | none =>
        match cs with
        | [] => none
        | _ :: rest => go fuel rest

def extraerInformacionGeneralC (texto : Chars) : InfoGeneral :=
  let titular := (searchTitular texto).map (fun g => (stripC g).asString)
  let periodo := searchPeriodoDates texto
  let limite := (searchLimite texto).map parsearImporteC
  ⟨titular, (periodo.map (fun p => p.1.asString)),
    (periodo.map (fun p => p.2.asString)), limite⟩

def extraerInformacionGeneral (s : String) : InfoGeneral :=
  extraerInformacionGeneralC s.toList

end Extracto

namespace Extracto

/-!  ## Método 1 of `extraer_operaciones_fraccionadas` (app.py lines 141–225) -/

/-- `^\d{2}\.\d{2}\.\d{4}.*(B\.?B\.?V\.?A\.?|CAJ\.LA\s*CAIXA)` (IGNORECASE):
a date at the line start and a merchant marker anywhere from position 10. -/
def m1Start (linea : Chars) : Bool :=
  isDate10At linea ∧
    (searchPos (fun cs => bbvaAt cs || caixaAt cs) (linea.drop 10)).isSome

/-- `re.search(r'B\.?B\.?V\.?A\.?', linea, IGNORECASE)`. -/
def bbvaSearch (linea : Chars) : Bool := (searchPos bbvaAt linea).isSome

/-- `re.search(r'CAJ\.LA\s*CAIXA', linea, IGNORECASE)`. -/
def caixaSearch (linea : Chars) : Bool := (searchPos caixaAt linea).isSome

/-- Token stoplist of Método 1 (app.py line 162). -/
def stoplistM1 : List Chars :=
  ["B.B.V.A.".toList, "BBVA".toList, "CAJ.LA".toList, "CAIXA".toList,
    "OF.7102".toList, "OF.7104".toList]

/-- The forward scan over lines `i+1 .. min(i+12, len)-1` that fills
`plazo` (first match wins) and `importe_pendiente_despues` (last matching
line wins, since the loop keeps overwriting). -/
def m1JLoop (plazo0 : Chars) (ipd0 : ℚ) (siguientes : List Chars) :
    Chars × ℚ :=
  siguientes.foldl
    (fun st l =>
      let ls := stripC l
      let plazo :=
        if st.1 = [] then
          match searchPlazo ls with
          | some g => normalizarPlazoC g
          | none => st.1
        else st.1
      let ipd :=
        if containsSub "Importe pendiente después".toList ls ∨
            containsSub "Importependientedespués".toList ls then
          match searchMon ls with
          | some m => parsearImporteC m
          | none => st.2
        else st.2
      (plazo, ipd))
    (plazo0, ipd0)

/-- Processing of line `i` by Método 1. -/
def metodo1Linea (lineas : List Chars) (i : ℕ) : Option Operacion :=
  match lineas.get? i with
  | none => none
  | some l0 =>
    let linea := stripC l0
    if m1Start linea then
      match splitWsC linea with
      | [] => none
      | fecha :: resto =>
        let numeros := (resto.filter fullMatchMon).map parsearImporteC
        let conceptoPartes := resto.filter
          (fun p => ¬ fullMatchMon p ∧ pyUpperC p ∉ stoplistM1)
        let concepto0 := stripC (joinWithC [' '] conceptoPartes)
        let concepto :=
          if bbvaSearch linea then
            (if concepto0 = [] then "B.B.V.A.".toList else concepto0)
          else if caixaSearch linea then
            (if concepto0 = [] then "CAJ.LA CAIXA".toList else concepto0)
          else concepto0
        let lo := i - 3
        let hi := min (i + 12) lineas.length
        let ventana :=
          joinWithC [' ', '\n'] (((lineas.drop lo).take (hi - lo)).map stripC)
        let plazo0 :=
          match searchPlazo ventana with
          | some g => normalizarPlazoC g
          | none => []
        let siguientes := (lineas.drop (i + 1)).take (hi - (i + 1))
        let st := m1JLoop plazo0 0 siguientes
        if 1 ≤ numeros.length then
          some ⟨fecha.asString, concepto.asString,
            numeros.getD 0 0,
            (if 1 < numeros.length then numeros.getD 1 0 else 0),
            (if 2 < numeros.length then numeros.getD 2 0 else 0),
            (if 3 < numeros.length then numeros.getD 3 0 else 0),
            (if 4 < numeros.length then numeros.getD 4 0 else 0),
            st.1.asString, st.2, ""⟩
        else none
    else none

/-- Método 1: the per-line candidate pass over the whole text. -/
def metodo1C (texto : Chars) : List Operacion :=
  let lineas := splitOnC '\n' texto
  (List.range lineas.length).filterMap (metodo1Linea lineas)

def metodo1 (s : String) : List Operacion := metodo1C s.toList

/-!  ## Deduplication of the app extractor (app.py lines 529–548) -/

/-- Round-half-to-even of `n / d` (`d > 0`), over exact rationals; models
Python's `round` (the sources only ever compare equally-parsed values, so
tie-breaking never differentiates the claims below). -/
def roundHalfEven (n : ℤ) (d : ℕ) : ℤ :=
  let t := Int.fdiv n d
  let r := n - t * d
  if 2 * r < d then t
  else if (d : ℤ) < 2 * r then t + 1
  else if t % 2 = 0 then t else t + 1

/-- Python `round(q, 2)`. -/
def round2 (q : ℚ) : ℚ := mkRat (roundHalfEven (q.num * 100) q.den) 100

/-- The dedup key of app.py lines 536–543:
`(fecha, concepto.strip().upper(), round(importe_operacion, 2),
round(importe_pendiente, 2), round(capital_amortizado, 2),
round(intereses, 2))`. -/
def claveApp (op : Operacion) : String × String × ℚ × ℚ × ℚ × ℚ :=
  (op.fecha, (pyUpperC (stripC op.concepto.toList)).asString,
    round2 op.importe_operacion, round2 op.importe_pendiente,
    round2 op.capital_amortizado, round2 op.intereses)

/-- First-occurrence-wins deduplication with a seen-key set (app.py lines
530–548; the Python `set` is modelled by a list used only through
membership). -/
def dedupApp (ops : List Operacion) : List Operacion :=
  go [] ops
where
  go (vistos : List (String × String × ℚ × ℚ × ℚ × ℚ)) :
      List Operacion → List Operacion
    | [] => []
    | op :: rest =>
      if claveApp op ∈ vistos then go vistos rest
      else op :: go (claveApp op :: vistos) rest

/-!  ## Método 4: section-scoped extraction (app.py lines 337–511) -/

/-- Words joined by `\s+` (IGNORECASE), anchored at the head; the greedy
`\s+` runs are deterministic before a letter.  Returns the consumed
length. -/
def phraseCi (words : List Chars) (cs : Chars) : Option ℕ :=
  match words with
  | [] => some 0
  | [w] => (litCi w cs).map (fun _ => w.length)
  | w :: ws =>
    match litCi w cs with
    | none => none
    | some r =>
      let wsp := r.takeWhile pyWs
      if wsp = [] then none
      else
        (phraseCi ws (r.dropWhile pyWs)).map
          (fun n => w.length + wsp.length + n)

/-- `IMPORTE\s+OPERACIONES\s+FRACCIONADAS` (IGNORECASE) at the head;
returns the consumed length. -/
def seccionHeaderLen (cs : Chars) : Option ℕ :=
  phraseCi ["IMPORTE".toList, "OPERACIONES".toList, "FRACCIONADAS".toList] cs

/-- `TOTAL\s+OPERACIONES\s+FRACCIONADAS` (IGNORECASE) at the head. -/
def seccionFooterLen (cs : Chars) : Option ℕ :=
  phraseCi ["TOTAL".toList, "OPERACIONES".toList, "FRACCIONADAS".toList] cs

/-- `re.search(r'IMPORTE\s+OPERACIONES\s+FRACCIONADAS.*?TOTAL\s+OPERACIONES\s+FRACCIONADAS', texto, DOTALL | IGNORECASE)`:
leftmost header followed (lazily) by the nearest footer; the match,
`group(0)`, is the section text. -/
def buscarSeccionApp (texto : Chars) : Option Chars :=
  go texto.length 0 texto
where
  footerEnd : ℕ → ℕ → Chars → Option ℕ
    | 0, _, _ => none
    | fuel + 1, i, cs =>
      match seccionFooterLen cs with
      | some fl => some (i + fl)
      | none =>
        match cs with
        | [] => none
        | _ :: rest => footerEnd fuel (i + 1) rest
  go : ℕ → ℕ → Chars → Option Chars
    | 0, _, _ => none
    | fuel + 1, i, cs =>
      match seccionHeaderLen cs with
      | some hl =>
        (match footerEnd (cs.drop hl).length 0 (cs.drop hl) with
         | some fe => some (texto.drop i |>.take (hl + fe))
         | none =>
           match cs with
           | [] => none
           | _ :: rest => go fuel (i + 1) rest)
      | none =>
        match cs with
        | [] => none
        | _ :: rest => go fuel (i + 1) rest

end Extracto

namespace Extracto

/-- `re.sub(r'\s+', ' ', ·)`: collapse all whitespace runs to one space. -/
def collapsePyWs (cs : Chars) : Chars :=
  go cs.length cs
where
  go : ℕ → Chars → Chars
    | 0, cs => cs
    | _, [] => []
    | fuel + 1, c :: r =>
      if pyWs c then ' ' :: go fuel (r.dropWhile pyWs)
      else c :: go fuel r

/-- The concept regex of Método 4 (app.py line 434):
`re.search(r'\d{2}\.\d{2}\.\d{4}\s+(.+?)(?=\d+[,\.]\d{2})', texto)`.
After the date and the greedy whitespace, the lazy group grows one
character at a time (never across a line break) until the look-ahead
`\d+[,\.]\d{2}` holds; if no growth succeeds, backtracking shortens the
whitespace run, which can only place the look-ahead at the first
non-whitespace position (whitespace is no digit), making the group end in
a single whitespace character. -/
def conceptoAt (cs : Chars) : Option Chars :=
  if isDate10At cs then
    let afterDate := cs.drop 10
    let w := afterDate.takeWhile pyWs
    if w = [] then none
    else
      let body := afterDate.drop w.length
      match lazyGrp body.length 1 body with
      | some g => some g
      | none =>
        if 2 ≤ w.length ∧ (matchSimpleAt body).isSome then
          some [w.getLastD ' ']
        else none
  else none
where
  lazyGrp : ℕ → ℕ → Chars → Option Chars
    | 0, _, _ => none
    | fuel + 1, k, body =>
      if (body.take k).contains '\n' ∨ body.length < k then none
      else if (matchSimpleAt (body.drop k)).isSome then some (body.take k)
      else lazyGrp fuel (k + 1) body

def searchConcepto (cs : Chars) : Option Chars :=
  go cs.length cs
where
  go : ℕ → Chars → Option Chars
    | 0, _ => none
    | fuel + 1, cs =>
      match conceptoAt cs with
      | some g => some g
      | none =>
        match cs with
        | [] => none
        | _ :: rest => go fuel rest

/-- The date of a Método-4 block: `fecha_match.group(1) if ... else ""`. -/
def bloqueFecha (textoOperacion : Chars) : Chars :=
  (searchDate10 textoOperacion).getD []

/-- The cleaned concept of a Método-4 block (app.py lines 434–449). -/
def bloqueConcepto (textoOperacion : Chars) : Chars :=
  let concepto1 :=
    match searchConcepto textoOperacion with
    | some g => collapsePyWs (stripC g)
    | none => []
  let conceptoU := pyUpperC concepto1
  if containsSub "CAJ.LA CAIXA".toList conceptoU ∨
      containsSub "CAIXA".toList conceptoU then "CAJ.LA CAIXA".toList
  else if containsSub "COMERCIAL MAYORARTE".toList conceptoU ∨
      containsSub "MAYORARTE".toList conceptoU then
    "COMERCIAL MAYORARTE".toList
  else if containsSub "B.B.V.A".toList conceptoU ∨
      containsSub "BBVA".toList conceptoU then "B.B.V.A.".toList
  else if startsWithLit "OF.".toList conceptoU ∨ concepto1.length < 4 then
    []
  else concepto1

/-- The amounts of a Método-4 block:
`[parsear_importe(n) for n in re.findall(PATRON_MONETARIO, ·) if n]`. -/
def bloqueNumeros (textoOperacion : Chars) : List ℚ :=
  ((findAllMon textoOperacion).filter (fun n => n ≠ [])).map parsearImporteC

/-- The plazo of a Método-4 block (app.py lines 456–460). -/
def bloquePlazo (textoOperacion : Chars) : Chars :=
  match searchPlazo textoOperacion with
  | some g => normalizarPlazoC g
  | none => []

/-- The validation `es_operacion_valida` of Método 4 (app.py lines
463–476). -/
def bloqueValido (textoOperacion : Chars) : Prop :=
  2 ≤ (bloqueNumeros textoOperacion).length ∧
    bloqueFecha textoOperacion ≠ [] ∧
    bloqueConcepto textoOperacion ≠ [] ∧
    3 < (bloqueConcepto textoOperacion).length ∧
    ¬ containsSub "importe pendiente".toList
      (pyLowerC (bloqueConcepto textoOperacion)) ∧
    ¬ containsSub "liquidacion".toList
      (pyLowerC (bloqueConcepto textoOperacion)) ∧
    (5 : ℚ) ≤ (bloqueNumeros textoOperacion).getD 0 0 ∧
    ((bloqueNumeros textoOperacion).length < 2 ∨
      (0 : ℚ) ≤ (bloqueNumeros textoOperacion).getD 1 0)

instance (b : Chars) : Decidable (bloqueValido b) := by
  unfold bloqueValido
  infer_instance

/-- Field assembly and validation for one operation block of Método 4
(app.py lines 424–496). -/
def procesarBloque (textoOperacion : Chars) : Option Operacion :=
  let numeros := bloqueNumeros textoOperacion
  if bloqueValido textoOperacion then
    some ⟨(bloqueFecha textoOperacion).asString,
      (bloqueConcepto textoOperacion).asString,
      numeros.getD 0 0,
      (if 1 < numeros.length then numeros.getD 1 0 else 0),
      (if 2 < numeros.length then numeros.getD 2 0 else 0),
      (if 3 < numeros.length then numeros.getD 3 0 else 0),
      (if 4 < numeros.length then numeros.getD 4 0 else 0),
      (bloquePlazo textoOperacion).asString, 0, ""⟩
  else none

/-- Block collection (app.py lines 412–422): gather stripped non-empty
lines until the next date-starting line or a `TOTAL OPERACIONES` line;
returns the block body and the remaining lines from the stop line on. -/
def collectBloque : ℕ → List Chars → List Chars × List Chars
  | 0, ls => ([], ls)
  | _, [] => ([], [])
  | fuel + 1, l :: rest =>
    let s := stripC l
    if isDate10At s ∨ containsSub "TOTAL OPERACIONES".toList (pyUpperC s) then
      ([], l :: rest)
    else if s = [] then collectBloque fuel rest
    else
      let br := collectBloque fuel rest
      (s :: br.1, br.2)

/-- The line scan of Método 4 over the section text (app.py lines
399–505): each date-starting line opens a block, processed as one joined
string; the index jump `i = j` resumes at the stop line. -/
def metodo4C (seccion : Chars) : List Operacion :=
  go (splitOnC '\n' seccion).length (splitOnC '\n' seccion)
where
  go : ℕ → List Chars → List Operacion
    | 0, _ => []
    | _, [] => []
    | fuel + 1, l :: rest =>
      let linea := stripC l
      if isDate10At linea then
        let br := collectBloque rest.length rest
        (procesarBloque (joinWithC [' '] (linea :: br.1))).toList ++
          go fuel br.2
      else go fuel rest

/-- `ExtractorExtractoBancario.extraer_operaciones_fraccionadas`
(app.py lines 118–580), with the debug flag off.  Métodos 1–3 (lines
141–335) compute candidate lists, but line 339 (`operaciones = []`, "usar
SOLO esta sección") discards them unconditionally before Método 4, so the
returned value is the deduplicated Método-4 result: empty when the
section delimiters are absent. -/
def extraerOperacionesFraccionadasC (texto : Chars) : List Operacion :=
  let operaciones :=
    match buscarSeccionApp texto with
    | some sec => metodo4C sec
    | none => []
  dedupApp operaciones

def extraerOperacionesFraccionadas (s : String) : List Operacion :=
  extraerOperacionesFraccionadasC s.toList

end Extracto

namespace Extracto

/-!  ## `extraer_operaciones_periodo` (app.py lines 582–677) -/

/-- Establishment class `[A-ZÁÉÍÓÚÜÑ/&\.\,\'\(\)0-9\- ]` under IGNORECASE. -/
def inClaseEst (c : Char) : Bool :=
  (let u := pyUpperChar c
   ('A' ≤ u ∧ u ≤ 'Z') || u = 'Á' || u = 'É' || u = 'Í' || u = 'Ó' ||
     u = 'Ú' || u = 'Ü' || u = 'Ñ') ||
  c = '-' || c = '/' || c = '&' || c = '.' || c = ',' || c = '\'' ||
  c = '(' || c = ')' || isDigitC c || c = ' '

/-- Locality class `[A-ZÁÉÍÓÚÜÑ/&\.\'\- ]` under IGNORECASE. -/
def inClaseLoc (c : Char) : Bool :=
  (let u := pyUpperChar c
   ('A' ≤ u ∧ u ≤ 'Z') || u = 'Á' || u = 'É' || u = 'Í' || u = 'Ó' ||
     u = 'Ú' || u = 'Ü' || u = 'Ñ') ||
  c = '-' || c = '/' || c = '&' || c = '.' || c = '\'' || c = ' '

/-- `re.match` of the period-operation pattern (app.py line 592):
`^(\d{2}\.\d{2}\.\d{4})\s+(E+?)\s+(L+?)\s+(M)(?:\s|$)` with IGNORECASE,
where `E`/`L` are the two classes above and `M` is `PATRON_MONETARIO`.
The backtracking follows the engine's depth-first order: each greedy
`\s+` longest-first, each lazy group shortest-first, the monetary parses
in preference order, and finally the `(?:\s|$)` boundary check.
Returns the four groups. -/
def periodoMatch (linea : Chars) :
    Option (Chars × Chars × Chars × Chars) :=
  if isDate10At linea then
    let fecha := linea.take 10
    let afterDate := linea.drop 10
    let w1max := (afterDate.takeWhile pyWs).length
    firstSome
      (fun w1 =>
        let s1 := afterDate.drop w1
        firstSome
          (fun e =>
            let g2 := s1.take e
            let s2 := s1.drop e
            let w2max := (s2.takeWhile pyWs).length
            firstSome
              (fun w2 =>
                let s3 := s2.drop w2
                firstSome
                  (fun l =>
                    let g3 := s3.take l
                    let s4 := s3.drop l
                    let w3max := (s4.takeWhile pyWs).length
                    firstSome
                      (fun w3 =>
                        let s5 := s4.drop w3
                        firstSome
                          (fun mlen =>
                            let s6 := s5.drop mlen
                            if s6 = [] ∨ pyWs (s6.headD ' ') then
                              some (fecha, g2, g3, s5.take mlen)
                            else none)
                          (monParses s5))
                      (descRange w3max))
                  (ascRange1 (s3.takeWhile inClaseLoc).length))
              (descRange w2max))
          (ascRange1 (s1.takeWhile inClaseEst).length))
      (descRange w1max)
  else none

/-- Primary pass: one record per line matching the strict pattern with
merchant length > 3 and locality length > 2 after trimming. -/
def periodoPrimario (texto : Chars) : List OperacionPeriodo :=
  (splitOnC '\n' texto).filterMap
    (fun l =>
      match periodoMatch (stripC l) with
      | some (fecha, g2, g3, imp) =>
        let est := stripC g2
        let loc := stripC g3
        if 3 < est.length ∧ 2 < loc.length then
          some ⟨fecha.asString, est.asString, loc.asString, parsearImporteC imp⟩
        else none
      | none => none)

/-- `abs(a - b) < 0.01` on exact rationals (denominators are positive). -/
def diffLtCent (a b : ℚ) : Bool :=
  (a.num * b.den - b.num * a.den).natAbs * 100 < a.den * b.den

/-- Stop condition of the fallback-section pattern lookahead
`(?=Página|\n\s*\n|\Z)` at a suffix. -/
def tarjetaStopAt (cs : Chars) : Bool :=
  (litCi "Página".toList cs).isSome ||
  (match cs with
   | '\n' :: r => r.takeWhile pyWs |>.contains '\n'
   | _ => false) ||
  cs = []

/-- `re.finditer(r'OPERACIONES DE LA TARJETA.*?(?=Página|\n\s*\n|\Z)', texto, DOTALL | IGNORECASE)`:
the matched sections, each from the keyword to the nearest stop. -/
def tarjetaSecciones (texto : Chars) : List Chars :=
  go texto.length texto
where
  stopLen : ℕ → ℕ → Chars → ℕ
    | 0, acc, _ => acc
    | fuel + 1, acc, cs =>
      if tarjetaStopAt cs then acc
      else match cs with
        | [] => acc
        | _ :: rest => stopLen fuel (acc + 1) rest
  go : ℕ → Chars → List Chars
    | 0, _ => []
    | _, [] => []
    | fuel + 1, c :: rest =>
      match litCi "OPERACIONES DE LA TARJETA".toList (c :: rest) with
      | some after =>
        let gap := stopLen after.length 0 after
        let matchLen := 25 + gap
        (c :: rest).take matchLen :: go fuel ((c :: rest).drop matchLen)
      | none => go fuel rest

/-- One fallback-pass candidate from a section line (app.py lines
633–669), checked for duplicates against the accumulated list. -/
def periodoFallbackLinea (acc : List OperacionPeriodo) (l : Chars) :
    List OperacionPeriodo :=
  let linea := stripC l
  if isDate10At linea then
    let partes := splitWsC linea
    if 4 ≤ partes.length then
      match partes with
      | [] => acc
      | fecha :: _ =>
        let candidatos := partes.filter fullMatchMon
        match candidatos.getLast? with
        | none => acc
        | some ultimo =>
          let importe := parsearImporteC ultimo
          let sinFechaImporte := (partes.drop 1).dropLast
          if 2 ≤ sinFechaImporte.length then
            let est := stripC (joinWithC [' '] sinFechaImporte.dropLast)
            let loc := stripC (joinWithC [' ']
              (sinFechaImporte.drop (sinFechaImporte.length - 1)))
            let dup := acc.any (fun op =>
              op.fecha = fecha.asString ∧ op.establecimiento = est.asString ∧
                diffLtCent op.importe importe)
            if dup then acc
            else acc ++ [⟨fecha.asString, est.asString, loc.asString, importe⟩]
          else acc
    else acc
  else acc

def extraerOperacionesPeriodoC (texto : Chars) : List OperacionPeriodo :=
  let operaciones := periodoPrimario texto
  if operaciones.length < 5 then
    (tarjetaSecciones texto).foldl
      (fun acc sec => (splitOnC '\n' sec).foldl periodoFallbackLinea acc)
      operaciones
  else operaciones

def extraerOperacionesPeriodo (s : String) : List OperacionPeriodo :=
  extraerOperacionesPeriodoC s.toList

/-!  ## Workbook building -/

inductive Celda where
  | s : String → Celda
  | q : ℚ → Celda
deriving DecidableEq

structure Hoja where
  nombre : String
  columnas : List String
  filas : List (List Celda)
deriving DecidableEq

def colsFrac : List String :=
  ["fecha", "concepto", "importe_operacion", "importe_pendiente",
    "capital_amortizado", "intereses", "cuota_mensual", "plazo",
    "importe_pendiente_despues"]

def colsPeriodo : List String :=
  ["fecha", "establecimiento", "localidad", "importe"]

def filaFrac (op : Operacion) : List Celda :=
  [.s op.fecha, .s op.concepto, .q op.importe_operacion,
    .q op.importe_pendiente, .q op.capital_amortizado, .q op.intereses,
    .q op.cuota_mensual, .s op.plazo, .q op.importe_pendiente_despues]

def filaPeriodo (op : OperacionPeriodo) : List Celda :=
  [.s op.fecha, .s op.establecimiento, .s op.localidad, .q op.importe]

/-- `crear_excel` of app.py (lines 698–715): both itemized sheets are
always written, with the fixed column lists (`DataFrame(…, columns=…)`
projects each record onto exactly those columns); `info_general` is not
used.  The workbook is modelled as its sheet list. -/
def crearExcel (_info : InfoGeneral) (fr : List Operacion)
    (per : List OperacionPeriodo) : List Hoja :=
  [⟨"Operaciones Fraccionadas", colsFrac, fr.map filaFrac⟩,
    ⟨"Operaciones Período", colsPeriodo, per.map filaPeriodo⟩]

/-- The sheets written by `GeneradorExcel.crear_excel` of utils.py (lines
44–62): the summary always, each itemized sheet only under the truthiness
guards `if operaciones_fraccionadas:` / `if operaciones_periodo:`. -/
def crearExcelUtilsHojas (_info : InfoGeneral) (fr : List Operacion)
    (per : List OperacionPeriodo) : List String :=
  ["Resumen"] ++
    (if fr.isEmpty then [] else ["Operaciones Fraccionadas"]) ++
    (if per.isEmpty then [] else ["Operaciones Período"])

end Extracto

namespace Extracto

/-!  ## `ExtractorOperacionesFraccionadas` (operaciones_fraccionadas.py) -/

/-- `\d{2}-\d{2}-\d{4}` anchored at the head. -/
def isDateDashAt : Chars → Bool
  | a :: b :: s1 :: c :: d :: s2 :: e :: f :: g :: h :: _ =>
    isDigitC a && isDigitC b && s1 = '-' && isDigitC c && isDigitC d &&
      s2 = '-' && isDigitC e && isDigitC f && isDigitC g && isDigitC h
  | _ => false

/-- `CAJ\.LA\s*CAIXA` (IGNORECASE) at the head, returning the consumed
length. -/
def caixaAtLen (cs : Chars) : Option ℕ :=
  match litCi "CAJ.LA".toList cs with
  | none => none
  | some r =>
    let w := (r.takeWhile pyWs).length
    match litCi "CAIXA".toList (r.drop w) with
    | none => none
    | some _ => some (6 + w + 5)

/-- `re.search(r'Plazo\s+(\d+\s*De\s*\d+)', cs, IGNORECASE)` (the modular
variant requires whitespace after the keyword and does not normalize). -/
def searchPlazoMod1 (cs : Chars) : Option Chars :=
  go cs.length cs
where
  att (cs : Chars) : Option Chars :=
    match litCi "Plazo".toList cs with
    | none => none
    | some r =>
      if (r.takeWhile pyWs) = [] then none
      else plazoGrp (r.dropWhile pyWs)
  go : ℕ → Chars → Option Chars
    | 0, _ => none
    | fuel + 1, cs =>
      match att cs with
      | some g => some g
      | none =>
        match cs with
        | [] => none
        | _ :: rest => go fuel rest

/-- `re.search(r'PRÓXIMO\s*PLAZO\s*(\d{2}-\d{2}-\d{4})', cs, IGNORECASE)`. -/
def searchPlazoMod2 (cs : Chars) : Option Chars :=
  go cs.length cs
where
  att (cs : Chars) : Option Chars :=
    match litCi "PRÓXIMO".toList cs with
    | none => none
    | some r =>
      match litCi "PLAZO".toList (r.dropWhile pyWs) with
      | none => none
      | some r2 =>
        let r3 := r2.dropWhile pyWs
        if isDateDashAt r3 then some (r3.take 10) else none
  go : ℕ → Chars → Option Chars
    | 0, _ => none
    | fuel + 1, cs =>
      match att cs with
      | some g => some g
      | none =>
        match cs with
        | [] => none
        | _ :: rest => go fuel rest

/-- `re.search(r'Importe\s+pendiente\s+después.*?(\d+[,\.]\d{2})', cs,
IGNORECASE)` (no DOTALL: the lazy gap cannot cross a line break). -/
def searchPendDespues (cs : Chars) : Option Chars :=
  go cs.length cs
where
  lazyNum : ℕ → Chars → Option Chars
    | 0, _ => none
    | fuel + 1, cs =>
      match matchSimpleAt cs with
      | some L => some (cs.take L)
      | none =>
        match cs with
        | [] => none
        | '\n' :: _ => none
        | _ :: rest => lazyNum fuel rest
  att (cs : Chars) : Option Chars :=
    match phraseCi ["Importe".toList, "pendiente".toList, "después".toList]
        cs with
    | none => none
    | some n => lazyNum (cs.drop n).length (cs.drop n)
  go : ℕ → Chars → Option Chars
    | 0, _ => none
    | fuel + 1, cs =>
      match att cs with
      | some g => some g
      | none =>
        match cs with
        | [] => none
        | _ :: rest => go fuel rest

/-- `_buscar_seccion_fraccionadas` (lines 75–97): the three section
patterns tried in order; each is a case-insensitive literal whose lazy
group runs to the nearest stop literal or `$` (end of text, or just
before a final line break).  Returns `group(1)` (possibly empty). -/
def buscarSeccionMod (texto : Chars) : Option Chars :=
  match seccionPat ["IMPORTE OPERACIONES FRACCIONADAS".toList]
      ["OPERACIONES DE LA TARJETA".toList] with
  | some g => some g
  | none =>
    match seccionPat ["OPERACIONES FRACCIONADAS".toList]
        ["OPERACIONES DE LA TARJETA".toList] with
    | some g => some g
    | none =>
      seccionPat ["FRACCIONADAS".toList]
        ["OPERACIONES DE LA TARJETA".toList, "TOTAL OPERACIONES".toList]
where
  grpLen (stops : List Chars) : ℕ → ℕ → Chars → ℕ
    | 0, acc, _ => acc
    | fuel + 1, acc, cs =>
      if stops.any (fun st => (litCi st cs).isSome) ∨ cs = ['\n'] ∨ cs = []
      then acc
      else
        match cs with
        | [] => acc
        | _ :: rest => grpLen stops fuel (acc + 1) rest
  findLit (lit : Chars) : ℕ → Chars → Option Chars
    | 0, _ => none
    | fuel + 1, cs =>
      match litCi lit cs with
      | some after => some after
      | none =>
        match cs with
        | [] => none
        | _ :: rest => findLit lit fuel rest
  seccionPat (lits : List Chars) (stops : List Chars) : Option Chars :=
    match lits with
    | [lit] =>
      match findLit lit texto.length texto with
      | none => none
      | some after => some (after.take (grpLen stops after.length 0 after))
    | _ => none

/-- The `tabla_estandar` pattern at the head (operaciones_fraccionadas.py
line 18): date, `CAJ.LA CAIXA`, optional office code, then five
`\d+[,\.]\d{2}` groups separated by whitespace; every quantifier here is
deterministic.  Returns (consumed length, date, the five amount groups). -/
def tablaEstandarAt (cs : Chars) :
    Option (ℕ × Chars × List Chars) :=
  if isDate10At cs then
    let r1 := cs.drop 10
    let w1 := (r1.takeWhile pyWs).length
    if w1 = 0 then none
    else
      match caixaAtLen (r1.drop w1) with
      | none => none
      | some cl =>
        let r2 := (r1.drop w1).drop cl
        let w2 := (r2.takeWhile pyWs).length
        if w2 = 0 then none
        else
          let r3 := r2.drop w2
          let ofl :=
            match litCi "OF.".toList r3 with
            | some r4 =>
              if (r4.take 4).length = 4 ∧ (r4.take 4).all isDigitC then 7
              else 0
            | none => 0
          let r5 := r3.drop ofl
          let w3 := (r5.takeWhile pyWs).length
          let base := 10 + w1 + cl + w2 + ofl + w3
          nums 5 (r5.drop w3) base []
  else none
where
  nums : ℕ → Chars → ℕ → List Chars → Option (ℕ × Chars × List Chars)
    | 0, _, len, acc => some (len, cs.take 10, acc.reverse)
    | k + 1, r, len, acc =>
      match matchSimpleAt r with
      | none => none
      | some L =>
        if k = 0 then nums 0 (r.drop L) (len + L) (r.take L :: acc)
        else
          let w := ((r.drop L).takeWhile pyWs).length
          if w = 0 then none
          else nums k ((r.drop L).drop w) (len + L + w) (r.take L :: acc)

/-- `_buscar_info_adicional` (lines 408–433): plazo and
importe-pendiente-después from the ±50/+300 character context of a match. -/
def infoAdicional (texto : Chars) (mstart mend : ℕ) : Chars × ℚ :=
  let contexto := (texto.drop (mstart - 50)).take
    ((min (mend + 300) texto.length) - (mstart - 50))
  let plazo :=
    match searchPlazoMod1 contexto with
    | some g => g
    | none => (searchPlazoMod2 contexto).getD []
  let ipd :=
    match searchPendDespues contexto with
    | some n => parseSimple n
    | none => 0
  (plazo, ipd)

/-- `_extraer_tabla_caixabank_estandar` (lines 99–147): `finditer` of the
standard-table pattern over the section text. -/
def tablaEstandar (texto : Chars) : List Operacion :=
  go texto.length 0 texto
where
  go : ℕ → ℕ → Chars → List Operacion
    | 0, _, _ => []
    | _, _, [] => []
    | fuel + 1, i, c :: rest =>
      match tablaEstandarAt (c :: rest) with
      | some (len, fecha, gs) =>
        let inf := infoAdicional texto i (i + len)
        ⟨fecha.asString, "CAJ.LA CAIXA",
          parseSimple (gs.getD 0 []), parseSimple (gs.getD 1 []),
          parseSimple (gs.getD 2 []), parseSimple (gs.getD 3 []),
          parseSimple (gs.getD 4 []), inf.1.asString, inf.2,
          "tabla_estandar"⟩ ::
          go fuel (i + len) ((c :: rest).drop len)
      | none => go fuel (i + 1) rest

/-- `_buscar_info_lineas_siguientes` (lines 435–464): scan the next six
lines; plazo keeps the first match, importe-pendiente-después keeps the
last line that carries the marker and a number. -/
def infoLineasSiguientes (lineas : List Chars) (i : ℕ) : Chars × ℚ :=
  ((lineas.drop (i + 1)).take (min (i + 7) lineas.length - (i + 1))).foldl
    (fun st l =>
      let ls := stripC l
      let plazo :=
        if st.1 = [] then
          match searchPlazoMod1 ls with
          | some g => g
          | none => (searchPlazoMod2 ls).getD []
        else st.1
      let ipd :=
        if containsSub "pendiente después".toList (pyLowerC ls) then
          match searchSimple ls with
          | some n => parseSimple n
          | none => st.2
        else st.2
      (plazo, ipd))
    ([], 0)

/-- Candidate-line test of the flexible pass:
`re.search(r'\d{2}\.\d{2}\.\d{4}.*CAJ\.LA\s*CAIXA', linea, IGNORECASE)`. -/
def flexCond (linea : Chars) : Bool :=
  (searchPos
    (fun cs => isDate10At cs ∧ (searchPos caixaAt (cs.drop 10)).isSome)
    linea).isSome

/-- Processing of line `i` by `_extraer_tabla_caixabank_flexible`
(lines 149–214). -/
def tablaFlexibleLinea (lineas : List Chars) (i : ℕ) : Option Operacion :=
  match lineas.get? i with
  | none => none
  | some l0 =>
    let linea := stripC l0
    if flexCond linea then
      match searchDate10 linea with
      | none => none
      | some fecha =>
        let numeros := (findAllSimple linea).map parseSimple
        if 1 ≤ numeros.length then
          let inf := infoLineasSiguientes lineas i
          some ⟨fecha.asString, "CAJ.LA CAIXA",
            numeros.getD 0 0,
            (if 1 < numeros.length then numeros.getD 1 0
             else numeros.getD 0 0),
            (if 2 < numeros.length then numeros.getD 2 0 else 0),
            (if 3 < numeros.length then numeros.getD 3 0 else 0),
            (if 4 < numeros.length then numeros.getD 4 0 else 0),
            inf.1.asString, inf.2, "tabla_flexible"⟩
        else none
    else none

def tablaFlexible (texto : Chars) : List Operacion :=
  let lineas := splitOnC '\n' texto
  (List.range lineas.length).filterMap (tablaFlexibleLinea lineas)

/-- Processing of line `i` by `_extraer_linea_por_linea_seccion`
(lines 216–286): numbers are collected from the stripped current line and
the three following raw lines. -/
def lineaPorLineaLinea (lineas : List Chars) (i : ℕ) : Option Operacion :=
  match lineas.get? i with
  | none => none
  | some l0 =>
    let linea := stripC l0
    if (searchDate10 linea).isSome ∧
        (["CAJ.LA".toList, "CAIXA".toList, "FRACCION".toList].any
          (fun w => containsSub w (pyUpperC linea))) then
      match searchDate10 linea with
      | none => none
      | some fecha =>
        let numerosCtx := findAllSimple linea ++
          (((lineas.drop (i + 1)).take
            (min (i + 4) lineas.length - (i + 1))).flatMap findAllSimple)
        let numeros := numerosCtx.map parseSimple
        if 1 ≤ numeros.length then
          some ⟨fecha.asString, "CAJ.LA CAIXA",
            numeros.getD 0 0,
            (if 1 < numeros.length then numeros.getD 1 0
             else numeros.getD 0 0),
            (if 2 < numeros.length then numeros.getD 2 0 else 0),
            (if 3 < numeros.length then numeros.getD 3 0 else 0),
            (if 4 < numeros.length then numeros.getD 4 0 else 0),
            "", 0, "linea_seccion"⟩
        else none
    else none

def lineaPorLinea (texto : Chars) : List Operacion :=
  let lineas := splitOnC '\n' texto
  (List.range lineas.length).filterMap (lineaPorLineaLinea lineas)

/-- The `patron_global` of `_extraer_texto_completo` at the head
(DOTALL): a date, the nearest following `CAJ.LA CAIXA`, then the nearest
following simple amount; returns (match length, date, amount group). -/
def patronGlobalAt (cs : Chars) : Option (ℕ × Chars × Chars) :=
  if isDate10At cs then
    match lazyTo caixaAtLen (cs.drop 10).length 0 (cs.drop 10) with
    | none => none
    | some q =>
      let afterCaixa := (cs.drop (10 + q.1)).drop q.2
      match lazyTo matchSimpleAt afterCaixa.length 0 afterCaixa with
      | none => none
      | some r =>
        some (10 + q.1 + q.2 + r.1 + r.2,
          cs.take 10, (afterCaixa.drop r.1).take r.2)
  else none
where
  lazyTo (m : Chars → Option ℕ) : ℕ → ℕ → Chars → Option (ℕ × ℕ)
    | 0, _, _ => none
    | fuel + 1, i, cs =>
      match m cs with
      | some L => some (i, L)
      | none =>
        match cs with
        | [] => none
        | _ :: rest => lazyTo m fuel (i + 1) rest

/-- `_extraer_texto_completo` (lines 288–341): `finditer` of
`patron_global` over the whole text, with amounts re-collected from a
−100/+200 character context window of each match. -/
def textoCompleto (texto : Chars) : List Operacion :=
  go texto.length 0 texto
where
  go : ℕ → ℕ → Chars → List Operacion
    | 0, _, _ => []
    | _, _, [] => []
    | fuel + 1, i, c :: rest =>
      match patronGlobalAt (c :: rest) with
      | some (len, fecha, grp) =>
        let importeBasico := parseSimple grp
        let inicio := i - 100
        let fin := min (i + len + 200) texto.length
        let contexto := (texto.drop inicio).take (fin - inicio)
        let numeros := (findAllSimple contexto).map parseSimple
        ⟨fecha.asString, "CAJ.LA CAIXA",
          importeBasico,
          (if 1 < numeros.length then numeros.getD 1 0 else importeBasico),
          (if 2 < numeros.length then numeros.getD 2 0 else 0),
          (if 3 < numeros.length then numeros.getD 3 0 else 0),
          (if 4 < numeros.length then numeros.getD 4 0 else 0),
          "", 0, "texto_completo"⟩ ::
          go fuel (i + len) ((c :: rest).drop len)
      | none => go fuel (i + 1) rest

/-- The `patron_minimo` of `_extraer_metodos_respaldo` at the head (no
DOTALL: the gap cannot cross a line break). -/
def patronMinimoAt (cs : Chars) : Option (ℕ × Chars) :=
  if isDate10At cs then
    match lazyLine (cs.drop 10).length 0 (cs.drop 10) with
    | none => none
    | some q => some (10 + q.1 + q.2, cs.take 10)
  else none
where
  lazyLine : ℕ → ℕ → Chars → Option (ℕ × ℕ)
    | 0, _, _ => none
    | fuel + 1, i, cs =>
      match caixaAtLen cs with
      | some L => some (i, L)
      | none =>
        match cs with
        | [] => none
        | '\n' :: _ => none
        | _ :: rest => lazyLine fuel (i + 1) rest

/-- `_extraer_metodos_respaldo` (lines 343–406): for each minimal match,
the first simple amount within the 200 characters from the match start. -/
def metodosRespaldo (texto : Chars) : List Operacion :=
  go texto.length 0 texto
where
  go : ℕ → ℕ → Chars → List Operacion
    | 0, _, _ => []
    | _, _, [] => []
    | fuel + 1, i, c :: rest =>
      match patronMinimoAt (c :: rest) with
      | some (len, fecha) =>
        let ventana := (texto.drop i).take 200
        (match searchSimple ventana with
         | some n =>
           let importe := parseSimple n
           [⟨fecha.asString, "CAJ.LA CAIXA", importe, importe, 0, 0, 0,
             "", 0, "respaldo_minimo"⟩]
         | none => []) ++
          go fuel (i + len) ((c :: rest).drop len)
      | none => go fuel (i + 1) rest

/-- `_eliminar_duplicados` (lines 466–480): keep an operation unless an
already-kept one has the same date and an importe within 0.01. -/
def eliminarDuplicados (ops : List Operacion) : List Operacion :=
  go [] ops
where
  go (unicas : List Operacion) : List Operacion → List Operacion
    | [] => unicas
    | op :: rest =>
      let dup := unicas.any (fun u =>
        u.fecha = op.fecha ∧
          diffLtCent u.importe_operacion op.importe_operacion)
      if dup then go unicas rest else go (unicas ++ [op]) rest

/-- `ExtractorOperacionesFraccionadas.extraer_operaciones_fraccionadas`
(lines 34–73): the strategy cascade.  `if seccion_texto:` is Python
truthiness, false for both `None` and the empty string. -/
def extraerModularC (texto : Chars) : List Operacion :=
  let seccion := buscarSeccionMod texto
  let ops1 :=
    match seccion with
    | some sec =>
      if sec ≠ [] then
        let a := tablaEstandar sec
        let b := if a.length < 5 then a ++ tablaFlexible sec else a
        if b.length < 5 then b ++ lineaPorLinea sec else b
      else []
    | none => []
  let ops2 := if ops1.length < 5 then ops1 ++ textoCompleto texto else ops1
  let ops3 := if ops2.length = 0 then ops2 ++ metodosRespaldo texto else ops2
  eliminarDuplicados ops3

def extraerModular (s : String) : List Operacion := extraerModularC s.toList

end Extracto

namespace Extracto

/-!  ## Concrete inputs used by the claim theorems -/

/-- Scenario A input of the spec (§8). -/
def entradaEscenarioA : String :=
  "15.03.2024 CAJ.LA CAIXA OF.7102 120,50 980,00 45,20 8,30 53,50\nPlazo 3 De 12\n"

/-- A candidate line carrying a single amount token. -/
def lineaUnNumero : String := "15.03.2024 CAJ.LA CAIXA 50,00"

/-- A candidate operation line with no section header anywhere. -/
def entradaSinSeccion : String := "01.02.2024 CAJ.LA CAIXA 50,00 40,00"

/-- Scenario B line of the spec (§8), with its original triple spacing. -/
def lineaEscenarioB : String := "10.01.2024 SUPERMERCADO XYZ   MADRID   35,40"

/-- A well-delimited fractioned-operations section. -/
def entradaSeccionada : String :=
  "IMPORTE OPERACIONES FRACCIONADAS\n15.03.2024 CAJ.LA CAIXA OF.7102 120,50 980,00 45,20 8,30 53,50\nPlazo 3 De 12\nTOTAL OPERACIONES FRACCIONADAS 980,00\n"

/-- A well-delimited section whose block's first monetary token parses
below 5 (the date fragment `04.01`). -/
def entradaImporteBajo : String :=
  "IMPORTE OPERACIONES FRACCIONADAS\n04.01.2024 CAJ.LA CAIXA OF.7102 120,50 980,00\nTOTAL OPERACIONES FRACCIONADAS\n"

/-- Input on which normalization is not idempotent: the first slash-date
rewrite exposes a second slash-date overlapping its tail. -/
def entradaNoIdem : String := "15/03/0024/03/2024"

def infoVacia : InfoGeneral := ⟨none, none, none, none⟩

/-- Modelled from the spec's words (§4.4 Stage E / §3): collapse by the
identity key, first occurrence wins in document order, later duplicates
discarded and not merged.  Used as the refinement reference for the
app.py deduplication. -/
def dedupPrimeraAparicion (ops : List Operacion) : List Operacion :=
  ops.foldl
    (fun acc op =>
      if acc.any (fun p => claveApp p = claveApp op) then acc
      else acc ++ [op])
    []

end Extracto

namespace Extracto

/-- A fractioned operation with an empty plazo, for the dedup scenario. -/
def opParSinPlazo : Operacion :=
  ⟨"15.03.2024", "CAJ.LA CAIXA", mkRat 241 2, 980, mkRat 226 5,
    mkRat 83 10, mkRat 107 2, "", 0, ""⟩

/-- The same operation with a populated plazo. -/
def opParConPlazo : Operacion :=
  ⟨"15.03.2024", "CAJ.LA CAIXA", mkRat 241 2, 980, mkRat 226 5,
    mkRat 83 10, mkRat 107 2, "3 De 12", 0, ""⟩

/-- A line is in the image of the whitespace collapse: every horizontal
whitespace character is a plain space and no two are adjacent. -/
def collapsedOK (cs : Chars) : Prop :=
  (∀ c ∈ cs, isHWs c = true → c = ' ') ∧
    cs.Chain' (fun a b => ¬(isHWs a = true ∧ isHWs b = true))

/-- A string is in the image of `strip`: dropping leading whitespace on
either end changes nothing. -/
def strippedOK (cs : Chars) : Prop :=
  cs.dropWhile pyWs = cs ∧ cs.reverse.dropWhile pyWs = cs.reverse

/-- An input on which normalization is idempotent (used by the C5
witness). -/
def entradaIdem : String :=
  "15.03.2024 CAJ.LA CAIXA  120,50\nPlazo 3 De 12"

/-!  # Theorems -/

/-- Bridge from decimal literals (`Rat.ofScientific`, which is
`@[irreducible]`) to the kernel-computable `mkRat` form. -/
theorem qScientific (m e : ℕ) :
    (OfScientific.ofScientific m true e : ℚ) = mkRat m (10 ^ e) := by
  rw [show (OfScientific.ofScientific m true e : ℚ) =
      Rat.ofScientific m true e from rfl, Rat.ofScientific_true_def]

/-- C4: the monetary token parser is a total function that returns 0.0 on
any unparseable input (whenever the final float conversion fails it
yields 0 instead of propagating an error), and satisfies the reference
equations `parse_amount("1.234,56") = 1234.56`,
`parse_amount("1234,56") = 1234.56`, `parse_amount("45,00-") = -45.0`,
`parse_amount("(45,00)") = -45.0`, `parse_amount("garbage") = 0.0`. -/
theorem C4_parsear_importe_total :
    parsearImporte "1.234,56" = 1234.56 ∧
    parsearImporte "1234,56" = 1234.56 ∧
    parsearImporte "45,00-" = -45 ∧
    parsearImporte "(45,00)" = -45 ∧
    parsearImporte "garbage" = 0 ∧
    (∀ s : String, pyFloatQ (importeTransform s.toList) = none →
      parsearImporte s = 0) := by
  refine ⟨by simp only [qScientific]; decide, by simp only [qScientific]; decide,
    by decide, by decide, by decide, ?_⟩
  intro s h
  show (if s.toList = [] then (0 : ℚ)
    else (pyFloatQ (importeTransform s.toList)).getD 0) = 0
  by_cases hs : s.toList = []
  · rw [if_pos hs]
  · rw [if_neg hs, h]
    rfl

/-- Witness for C4: the totality clause applied at the concrete
unparseable token `"garbage"`. -/
theorem C4_witness :
    pyFloatQ (importeTransform "garbage".toList) = none ∧
    parsearImporte "garbage" = 0 :=
  ⟨by decide, C4_parsear_importe_total.2.2.2.2.2 "garbage" (by decide)⟩

/-- C2 counterexample: on the Scenario A input the app.py
fractioned-operations extractor returns the empty list — not one record —
because Método 4 discards the Método-1 candidate and the section header
pair is absent. -/
theorem C2_counterexample :
    extraerOperacionesFraccionadas entradaEscenarioA = [] ∧
    ¬ ∃ op : Operacion,
      extraerOperacionesFraccionadas entradaEscenarioA = [op] := by
  refine ⟨by decide, ?_⟩
  rintro ⟨op, h⟩
  rw [show extraerOperacionesFraccionadas entradaEscenarioA = [] by decide]
    at h
  exact List.noConfusion h

/-- C2 amended: Método 1's candidate pass alone produces exactly the
record claimed by Scenario A (fecha 15.03.2024, importes 120.50 / 980.00
/ 45.20 / 8.30 / 53.50, plazo "3 De 12"), but the extractor's final
output on this input is empty, since the section-based Método 4
unconditionally replaces the earlier candidates and no section header is
present. -/
theorem C2_escenarioA :
    metodo1 entradaEscenarioA =
      [⟨"15.03.2024", "CAJ.LA CAIXA", 120.50, 980.00, 45.20, 8.30, 53.50,
        "3 De 12", 0, ""⟩] ∧
    extraerOperacionesFraccionadas entradaEscenarioA = [] := by
  exact ⟨by simp only [qScientific]; decide, by decide⟩

/-- C3 counterexample: a candidate line with a single numeric token gives
a Método-1 record with `importe_pendiente = 0.0`, not
`importe_pendiente = importe_operacion` (app.py line 208 defaults to
0.0). -/
theorem C3_counterexample :
    metodo1 lineaUnNumero =
      [⟨"15.03.2024", "CAJ.LA CAIXA", 50, 0, 0, 0, 0, "", 0, ""⟩] ∧
    ((0 : ℚ) ≠ 50) := by
  exact ⟨by decide, by decide⟩

/-- C3 amended: in the modular extractor's flexible pass
(operaciones_fraccionadas.py lines 188–199) a candidate line from which
exactly one numeric token is extracted yields a record with
`importe_pendiente = importe_operacion` and zero `capital_amortizado`,
`intereses`, `cuota_mensual`; app.py's Método 1 instead defaults
`importe_pendiente` to 0.0 (and no single-token record reaches app.py's
final output, whose Método-4 validator demands at least two tokens). -/
theorem C3_pendiente_default (lineas : List Chars) (i : ℕ) (l : Chars)
    (op : Operacion) (hl : lineas.get? i = some l)
    (hop : tablaFlexibleLinea lineas i = some op)
    (h1 : (findAllSimple (stripC l)).length = 1) :
    op.importe_pendiente = op.importe_operacion ∧
      op.capital_amortizado = 0 ∧ op.intereses = 0 ∧
      op.cuota_mensual = 0 := by
  unfold tablaFlexibleLinea at hop
  rw [hl] at hop
  simp only at hop
  by_cases hc : flexCond (stripC l) = true
  · rw [if_pos hc] at hop
    cases hd : searchDate10 (stripC l) with
    | none => rw [hd] at hop; exact absurd hop (by simp)
    | some fecha =>
      rw [hd] at hop
      simp only [List.length_map, h1] at hop
      norm_num at hop
      rw [← hop]
      exact ⟨rfl, rfl, rfl, rfl⟩
  · rw [if_neg hc] at hop
    exact absurd hop (by simp)

/-- Witness for C3: the flexible pass on a concrete single-token line
(the sole token is the date fragment `15.03`). -/
theorem C3_witness :
    ∃ op, tablaFlexibleLinea ["15.03.2024 CAJ.LA CAIXA".toList] 0 =
        some op ∧
      (op.importe_pendiente = op.importe_operacion ∧
        op.capital_amortizado = 0 ∧ op.intereses = 0 ∧
        op.cuota_mensual = 0) :=
  ⟨⟨"15.03.2024", "CAJ.LA CAIXA", mkRat 1503 100, mkRat 1503 100, 0, 0, 0,
      "", 0, "tabla_flexible"⟩, by decide,
    C3_pendiente_default ["15.03.2024 CAJ.LA CAIXA".toList] 0
      "15.03.2024 CAJ.LA CAIXA".toList _ (by rfl) (by decide) (by decide)⟩

end Extracto

namespace Extracto

/-- C8 counterexample: on the Scenario B line the period-operations
extractor returns one record whose merchant is only `"SUPERMERCADO"` and
whose locality is `"XYZ   MADRID"` — the lazy first group stops at the
first whitespace opportunity — contradicting the claimed
`establecimiento = "SUPERMERCADO XYZ"`, `localidad = "MADRID"`. -/
theorem C8_counterexample :
    extraerOperacionesPeriodo lineaEscenarioB =
      [⟨"10.01.2024", "SUPERMERCADO", "XYZ   MADRID", 35.40⟩] ∧
    ("SUPERMERCADO" : String) ≠ "SUPERMERCADO XYZ" ∧
    ("XYZ   MADRID" : String) ≠ "MADRID" := by
  exact ⟨by simp only [qScientific]; decide, by decide, by decide⟩

/-- C8 amended: the Scenario B input yields exactly one record with
fecha 10.01.2024 and importe 35.40, but with
`establecimiento = "SUPERMERCADO"` and `localidad = "XYZ   MADRID"`
(after normalization the locality is `"XYZ MADRID"`). -/
theorem C8_escenarioB :
    extraerOperacionesPeriodo lineaEscenarioB =
      [⟨"10.01.2024", "SUPERMERCADO", "XYZ   MADRID", 35.40⟩] ∧
    extraerOperacionesPeriodo (normalizarTexto lineaEscenarioB) =
      [⟨"10.01.2024", "SUPERMERCADO", "XYZ MADRID", 35.40⟩] := by
  exact ⟨by simp only [qScientific]; decide,
    by simp only [qScientific]; decide⟩

/-- C9 counterexample: with both operation lists empty, the utils.py
workbook builder (`GeneradorExcel.crear_excel`, cited by the claim)
writes only the summary sheet — the two itemized sheets are skipped, so
sheet presence does depend on list emptiness there. -/
theorem C9_counterexample :
    crearExcelUtilsHojas infoVacia [] [] = ["Resumen"] ∧
    "Operaciones Fraccionadas" ∉ crearExcelUtilsHojas infoVacia [] [] ∧
    "Operaciones Período" ∉ crearExcelUtilsHojas infoVacia [] [] := by
  refine ⟨by decide, by decide, by decide⟩

/-- C9 amended: app.py's `crear_excel` always creates both itemized
sheets, in order, with the fixed column lists, for every pair of input
lists; the utils.py `GeneradorExcel.crear_excel` instead creates each
itemized sheet exactly when the corresponding list is non-empty. -/
theorem C9_hojas :
    (∀ (info : InfoGeneral) (fr : List Operacion)
        (per : List OperacionPeriodo),
      (crearExcel info fr per).map Hoja.nombre =
        ["Operaciones Fraccionadas", "Operaciones Período"] ∧
      (crearExcel info fr per).map Hoja.columnas =
        [colsFrac, colsPeriodo] ∧
      (crearExcel info fr per).map Hoja.filas =
        [fr.map filaFrac, per.map filaPeriodo]) ∧
    (∀ (info : InfoGeneral) (fr : List Operacion)
        (per : List OperacionPeriodo),
      ("Operaciones Fraccionadas" ∈ crearExcelUtilsHojas info fr per ↔
        fr ≠ []) ∧
      ("Operaciones Período" ∈ crearExcelUtilsHojas info fr per ↔
        per ≠ []) ∧
      "Resumen" ∈ crearExcelUtilsHojas info fr per) := by
  constructor
  · intro info fr per
    exact ⟨rfl, rfl, rfl⟩
  · intro info fr per
    refine ⟨?_, ?_, ?_⟩
    · cases fr <;> cases per <;> simp [crearExcelUtilsHojas]
    · cases fr <;> cases per <;> simp [crearExcelUtilsHojas]
    · cases fr <;> cases per <;> simp [crearExcelUtilsHojas]

/-- Every element surviving `dedupApp` was in the input list. -/
theorem dedupApp_go_subset (l : List Operacion)
    (vistos : List (String × String × ℚ × ℚ × ℚ × ℚ)) (op : Operacion)
    (h : op ∈ dedupApp.go vistos l) : op ∈ l := by
  induction l generalizing vistos with
  | nil => simp [dedupApp.go] at h
  | cons a rest ih =>
    rw [dedupApp.go] at h
    by_cases hk : claveApp a ∈ vistos
    · rw [if_pos hk] at h
      exact List.mem_cons_of_mem a (ih _ h)
    · rw [if_neg hk] at h
      rcases List.mem_cons.mp h with h1 | h2
      · exact h1 ▸ List.mem_cons_self a rest
      · exact List.mem_cons_of_mem a (ih _ h2)

/-- Every operation emitted by the Método-4 scan comes from some block. -/
theorem metodo4_go_mem (fuel : ℕ) (lineas : List Chars) (op : Operacion)
    (h : op ∈ metodo4C.go fuel lineas) :
    ∃ bloque : Chars, procesarBloque bloque = some op := by
  induction fuel generalizing lineas with
  | zero => simp [metodo4C.go] at h
  | succ fuel ih =>
    cases lineas with
    | nil => simp [metodo4C.go] at h
    | cons l rest =>
      rw [metodo4C.go] at h
      by_cases hd : isDate10At (stripC l) = true
      · rw [if_pos hd] at h
        rcases List.mem_append.mp h with h1 | h2
        · refine ⟨joinWithC [' ']
            (stripC l :: (collectBloque rest.length rest).1), ?_⟩
          cases hp : procesarBloque (joinWithC [' ']
              (stripC l :: (collectBloque rest.length rest).1)) with
          | none => rw [hp] at h1; simp [Option.toList] at h1
          | some op2 =>
            rw [hp] at h1
            simp [Option.toList] at h1
            rw [h1]
        · exact ih _ h2
      · rw [if_neg hd] at h
        exact ih _ h

/-- A block accepted by the Método-4 validator yields a record with
`importe_operacion ≥ 5`, a concept longer than three characters, and at
least two monetary tokens in the block. -/
theorem procesarBloque_valida (b : Chars) (op : Operacion)
    (h : procesarBloque b = some op) :
    (5 : ℚ) ≤ op.importe_operacion ∧ 3 < op.concepto.length ∧
      2 ≤ (findAllMon b).length := by
  unfold procesarBloque at h
  simp only at h
  by_cases hv : bloqueValido b
  · rw [if_pos hv] at h
    have hlen : 2 ≤ (findAllMon b).length := by
      have h1 := hv.1
      unfold bloqueNumeros at h1
      calc 2 ≤ (((findAllMon b).filter (fun n => n ≠ [])).map
            parsearImporteC).length := h1
        _ = ((findAllMon b).filter (fun n => n ≠ [])).length := by
            rw [List.length_map]
        _ ≤ (findAllMon b).length := List.length_filter_le _ _
    have hop := Option.some.inj h
    refine ⟨?_, ?_, hlen⟩
    · rw [← hop]
      exact hv.2.2.2.2.2.2.1
    · rw [← hop]
      exact hv.2.2.2.1
  · rw [if_neg hv] at h
    exact absurd h (by simp)

/-- C10: the section-based Método 4 is the only gate to app.py's
fractioned-operations output — the extractor equals the deduplicated
Método-4 result for every input, every returned record satisfies
`importe_operacion ≥ 5.0` and `len(concepto) > 3` and stems from a block
with at least two monetary tokens, and a well-delimited section whose
block's first monetary token parses below 5 yields no record at all. -/
theorem C10_metodo4_gate :
    (∀ s : String, extraerOperacionesFraccionadas s =
      dedupApp (match buscarSeccionApp s.toList with
        | some sec => metodo4C sec
        | none => [])) ∧
    (∀ (s : String) (op : Operacion),
      op ∈ extraerOperacionesFraccionadas s →
      (5 : ℚ) ≤ op.importe_operacion ∧ 3 < op.concepto.length ∧
        ∃ bloque : Chars, procesarBloque bloque = some op ∧
          2 ≤ (findAllMon bloque).length) ∧
    extraerOperacionesFraccionadas entradaImporteBajo = [] := by
  refine ⟨fun s => rfl, ?_, by decide⟩
  intro s op h
  have h2 : op ∈ (match buscarSeccionApp s.toList with
      | some sec => metodo4C sec
      | none => []) := dedupApp_go_subset _ _ _ h
  have h3 : ∃ bloque : Chars, procesarBloque bloque = some op := by
    cases hs : buscarSeccionApp s.toList with
    | none => rw [hs] at h2; simp at h2
    | some sec =>
      rw [hs] at h2
      exact metodo4_go_mem _ _ _ h2
  rcases h3 with ⟨bloque, hb⟩
  have hv := procesarBloque_valida bloque op hb
  exact ⟨hv.1, hv.2.1, bloque, hb, hv.2.2⟩

/-- Witness for C10: the invariant applied to the record extracted from
the concrete well-delimited section (note `importe_operacion = 15.03`,
the `DD.MM` fragment of the date — the first monetary-pattern token of
the block). -/
theorem C10_witness :
    (5 : ℚ) ≤ (mkRat 1503 100) ∧
    ∃ op, op ∈ extraerOperacionesFraccionadas entradaSeccionada ∧
      (5 : ℚ) ≤ op.importe_operacion ∧ 3 < op.concepto.length ∧
      ∃ bloque : Chars, procesarBloque bloque = some op ∧
        2 ≤ (findAllMon bloque).length := by
  refine ⟨by decide, ⟨"15.03.2024", "CAJ.LA CAIXA", mkRat 1503 100,
    mkRat 204241 2, 980, mkRat 226 5, mkRat 83 10, "3 De 12", 0, ""⟩,
    ?_, ?_⟩
  · decide
  · exact C10_metodo4_gate.2.1 entradaSeccionada _ (by decide)

end Extracto

namespace Extracto

/-- C1 counterexample: `entradaSinSeccion` is a candidate operation line
(date at the start, a known merchant marker, two monetary tokens) and no
section header exists, yet the app.py extractor returns no record — no
fallback to the full text happens. -/
theorem C1_counterexample :
    m1Start (stripC entradaSinSeccion.toList) = true ∧
    1 ≤ ((splitWsC (stripC entradaSinSeccion.toList)).filter
      fullMatchMon).length ∧
    buscarSeccionApp entradaSinSeccion.toList = none ∧
    extraerOperacionesFraccionadas entradaSinSeccion = [] := by
  refine ⟨by decide, by decide, by decide, by decide⟩

/-- C1 amended: when the section header pair is absent, app.py's
extractor returns the empty list (its Método 4 never falls back to the
whole text); the modular extractor in operaciones_fraccionadas.py does
fall back — with no section found, its result is exactly the
deduplicated full-text pass (plus the emergency pass when that found
nothing) — so there a candidate line outside any section still yields a
record, as on the concrete input. -/
theorem C1_seccion_fallback :
    (∀ s : String, buscarSeccionApp s.toList = none →
      extraerOperacionesFraccionadas s = []) ∧
    (∀ s : String, buscarSeccionMod s.toList = none →
      extraerModular s =
        eliminarDuplicados
          (if (textoCompleto s.toList).length = 0 then
            textoCompleto s.toList ++ metodosRespaldo s.toList
          else textoCompleto s.toList)) ∧
    extraerModular entradaSinSeccion =
      [⟨"01.02.2024", "CAJ.LA CAIXA", 50, 50, 40, 0, 0, "", 0,
        "texto_completo"⟩] := by
  refine ⟨?_, ?_, by decide⟩
  · intro s h
    show dedupApp (match buscarSeccionApp s.toList with
      | some sec => metodo4C sec
      | none => []) = []
    rw [h]
    rfl
  · intro s h
    simp only [extraerModular, extraerModularC, h]
    norm_num

/-- Witness for C1: both universal parts applied at the concrete
section-less input. -/
theorem C1_witness :
    extraerOperacionesFraccionadas entradaSinSeccion = [] ∧
    extraerModular entradaSinSeccion =
      eliminarDuplicados
        (if (textoCompleto entradaSinSeccion.toList).length = 0 then
          textoCompleto entradaSinSeccion.toList ++
            metodosRespaldo entradaSinSeccion.toList
        else textoCompleto entradaSinSeccion.toList) :=
  ⟨C1_seccion_fallback.1 entradaSinSeccion (by decide),
    C1_seccion_fallback.2.1 entradaSinSeccion (by decide)⟩

/-- C6: the three extractors are total functions of the input string —
the embedding is accepted by Lean as terminating total functions, every
fallible primitive (float conversion, indexing) is handled exactly where
the source guards or catches it, and the edge inputs of the claim (empty,
pure whitespace, garbage) produce empty results rather than errors. -/
theorem C6_extractores_totales :
    (∀ s : String, ∃ (info : InfoGeneral) (ops : List Operacion)
        (per : List OperacionPeriodo),
      extraerInformacionGeneral s = info ∧
      extraerOperacionesFraccionadas s = ops ∧
      extraerOperacionesPeriodo s = per) ∧
    extraerInformacionGeneral "" = ⟨none, none, none, none⟩ ∧
    extraerOperacionesFraccionadas "" = [] ∧
    extraerOperacionesPeriodo "" = [] ∧
    extraerOperacionesFraccionadas "   \n\t " = [] ∧
    extraerOperacionesPeriodo "   \n\t " = [] ∧
    extraerInformacionGeneral "!!garbage##" = ⟨none, none, none, none⟩ ∧
    extraerOperacionesFraccionadas "!!garbage##" = [] ∧
    extraerOperacionesPeriodo "!!garbage##" = [] := by
  refine ⟨fun s => ⟨_, _, _, rfl, rfl, rfl⟩, by decide, by decide,
    by decide, by decide, by decide, by decide, by decide, by decide⟩

end Extracto

namespace Extracto

/-- The seen-set recursion of app.py's dedup equals a left fold that
keeps a record only when no already-kept record shares its key. -/
theorem dedupApp_go_foldl (ops : List Operacion) :
    ∀ (acc : List Operacion)
      (vistos : List (String × String × ℚ × ℚ × ℚ × ℚ)),
      (∀ k, k ∈ vistos ↔ ∃ p ∈ acc, claveApp p = k) →
      acc ++ dedupApp.go vistos ops =
        ops.foldl
          (fun a op =>
            if a.any (fun p => claveApp p = claveApp op) then a
            else a ++ [op]) acc := by
  induction ops with
  | nil => intro acc vistos _; simp [dedupApp.go]
  | cons op rest ih =>
    intro acc vistos hv
    rw [dedupApp.go, List.foldl_cons]
    by_cases hk : claveApp op ∈ vistos
    · rw [if_pos hk]
      have hany : acc.any (fun p => claveApp p = claveApp op) = true := by
        rcases (hv (claveApp op)).mp hk with ⟨p, hp, he⟩
        exact List.any_eq_true.mpr ⟨p, hp, decide_eq_true he⟩
      rw [if_pos hany]
      exact ih acc vistos hv
    · rw [if_neg hk]
      have hany : ¬ acc.any (fun p => claveApp p = claveApp op) = true := by
        intro hc
        rcases List.any_eq_true.mp hc with ⟨p, hp, he⟩
        exact hk ((hv (claveApp op)).mpr ⟨p, hp, of_decide_eq_true he⟩)
      rw [if_neg hany]
      have hcons : acc ++ op :: dedupApp.go (claveApp op :: vistos) rest
          = (acc ++ [op]) ++ dedupApp.go (claveApp op :: vistos) rest := by
        simp
      rw [hcons]
      apply ih
      intro k
      constructor
      · intro hkk
        rcases List.mem_cons.mp hkk with h1 | h2
        · exact ⟨op, by simp, h1.symm⟩
        · rcases (hv k).mp h2 with ⟨p, hp, he⟩
          exact ⟨p, by simp [hp], he⟩
      · rintro ⟨p, hp, he⟩
        rcases List.mem_append.mp hp with h1 | h2
        · exact List.mem_cons_of_mem _ ((hv k).mpr ⟨p, h1, he⟩)
        · have hpo : p = op := by simpa using h2
          subst hpo
          rw [← he]
          exact List.mem_cons_self _ _

/-- If a key is already in the seen set, no later record with that key
survives the dedup recursion. -/
theorem dedupApp_go_filter_visto (ops : List Operacion) :
    ∀ (vistos : List (String × String × ℚ × ℚ × ℚ × ℚ))
      (k : String × String × ℚ × ℚ × ℚ × ℚ),
      k ∈ vistos →
      (dedupApp.go vistos ops).filter (fun p => claveApp p = k) = [] := by
  induction ops with
  | nil => intro vistos k _; rfl
  | cons op rest ih =>
    intro vistos k hk
    rw [dedupApp.go]
    by_cases hop : claveApp op ∈ vistos
    · rw [if_pos hop]
      exact ih vistos k hk
    · rw [if_neg hop]
      rw [List.filter_cons]
      have hne : ¬ claveApp op = k := fun he => hop (he ▸ hk)
      rw [if_neg (by simpa using hne)]
      exact ih (claveApp op :: vistos) k (List.mem_cons_of_mem _ hk)

/-- A key not yet seen that occurs in the list survives the dedup
recursion exactly once, as the list's first record carrying it. -/
theorem dedupApp_go_filter_primero (ops : List Operacion) :
    ∀ (vistos : List (String × String × ℚ × ℚ × ℚ × ℚ))
      (k : String × String × ℚ × ℚ × ℚ × ℚ),
      k ∉ vistos → (∃ p ∈ ops, claveApp p = k) →
      ∃ r, ops.find? (fun p => claveApp p = k) = some r ∧
        (dedupApp.go vistos ops).filter (fun p => claveApp p = k) = [r] := by
  induction ops with
  | nil =>
    intro vistos k _ hex
    rcases hex with ⟨p, hp, _⟩
    exact absurd hp (List.not_mem_nil p)
  | cons op rest ih =>
    intro vistos k hk hex
    rw [dedupApp.go]
    by_cases he : claveApp op = k
    · refine ⟨op, ?_, ?_⟩
      · simp [List.find?_cons, he]
      · rw [if_neg (fun hm : claveApp op ∈ vistos => hk (he ▸ hm))]
        rw [List.filter_cons, if_pos (by simpa using he)]
        rw [dedupApp_go_filter_visto rest (claveApp op :: vistos) k
          (he ▸ List.mem_cons_self (claveApp op) vistos)]
    · have hex' : ∃ p ∈ rest, claveApp p = k := by
        rcases hex with ⟨p, hp, hpe⟩
        rcases List.mem_cons.mp hp with h1 | h2
        · exact absurd (h1 ▸ hpe) he
        · exact ⟨p, h2, hpe⟩
      have hfind : List.find? (fun p => decide (claveApp p = k)) (op :: rest)
          = List.find? (fun p => decide (claveApp p = k)) rest := by
        simp [List.find?_cons, he]
      rw [hfind]
      by_cases hop : claveApp op ∈ vistos
      · rw [if_pos hop]
        exact ih vistos k hk hex'
      · rw [if_neg hop]
        rcases ih (claveApp op :: vistos) k
          (fun hm => (List.mem_cons.mp hm).elim (fun h1 => he h1.symm) hk)
          hex' with ⟨r, hr1, hr2⟩
        refine ⟨r, hr1, ?_⟩
        rw [List.filter_cons, if_neg (by simpa using he)]
        exact hr2

/-- C7: app.py's dedup keeps, for each key, exactly the first record in
list order (it equals the first-occurrence left fold), and for two
records agreeing on fecha, concepto and the four rounded monetary fields
while differing in plazo, the two share one key and exactly one record —
the list's first carrier of that key — survives. -/
theorem C7_dedup_primera :
    (∀ ops : List Operacion, dedupApp ops = dedupPrimeraAparicion ops) ∧
    (∀ (ops : List Operacion) (i j : ℕ) (op1 op2 : Operacion),
      ops.get? i = some op1 → ops.get? j = some op2 → i < j →
      op1.fecha = op2.fecha → op1.concepto = op2.concepto →
      round2 op1.importe_operacion = round2 op2.importe_operacion →
      round2 op1.importe_pendiente = round2 op2.importe_pendiente →
      round2 op1.capital_amortizado = round2 op2.capital_amortizado →
      round2 op1.intereses = round2 op2.intereses →
      op1.plazo = "" → op2.plazo ≠ "" →
      claveApp op2 = claveApp op1 ∧
      ∃ r, ops.find? (fun p => claveApp p = claveApp op1) = some r ∧
        (dedupApp ops).filter
          (fun p => claveApp p = claveApp op1) = [r]) := by
  constructor
  · intro ops
    have h := dedupApp_go_foldl ops [] [] (by simp)
    simpa [dedupApp, dedupPrimeraAparicion] using h
  · intro ops i j op1 op2 h1 _ _ hfec hcon hio hip hca hin _ _
    constructor
    · simp [claveApp, hfec, hcon, hio, hip, hca, hin]
    · have hmem : op1 ∈ ops := List.get?_mem h1
      exact dedupApp_go_filter_primero ops [] (claveApp op1)
        (by simp) ⟨op1, hmem, rfl⟩

/-- Witness for C7 on the concrete pair of the spec's scenario: the
plazo-less record first, the plazo-carrying duplicate second. -/
theorem C7_witness :
    claveApp opParConPlazo = claveApp opParSinPlazo ∧
    ∃ r, [opParSinPlazo, opParConPlazo].find?
        (fun p => claveApp p = claveApp opParSinPlazo) = some r ∧
      (dedupApp [opParSinPlazo, opParConPlazo]).filter
        (fun p => claveApp p = claveApp opParSinPlazo) = [r] :=
  C7_dedup_primera.2 [opParSinPlazo, opParConPlazo] 0 1
    opParSinPlazo opParConPlazo rfl rfl (by decide) rfl rfl rfl rfl rfl
    rfl rfl (by decide)

end Extracto

namespace Extracto

/-- The head of a `dropWhile` output does not satisfy the predicate. -/
theorem dropWhile_head_eq_false {p : Char → Bool} :
    ∀ {l : Chars} {c : Char} {r : Chars},
      List.dropWhile p l = c :: r → p c = false := by
  intro l
  induction l with
  | nil => intro c r h; simp [List.dropWhile] at h
  | cons a l ih =>
    intro c r h
    rw [List.dropWhile_cons] at h
    by_cases hp : p a = true
    · rw [if_pos hp] at h
      exact ih h
    · rw [if_neg hp] at h
      cases h
      simpa using hp

/-- `dropWhile` is idempotent. -/
theorem dropWhile_idem (p : Char → Bool) (l : Chars) :
    (l.dropWhile p).dropWhile p = l.dropWhile p := by
  cases h : l.dropWhile p with
  | nil => rfl
  | cons c r =>
    rw [List.dropWhile_cons, if_neg (by simp [dropWhile_head_eq_false h])]

/-- `stripC` is the identity on `strippedOK` strings. -/
theorem stripC_eq_of_strippedOK (cs : Chars) (h : strippedOK cs) :
    stripC cs = cs := by
  unfold stripC
  rw [h.1, h.2, List.reverse_reverse]

/-- The output of `stripC` is `strippedOK`. -/
theorem strippedOK_stripC (cs : Chars) : strippedOK (stripC cs) := by
  constructor
  · show List.dropWhile pyWs
        ((cs.dropWhile pyWs).reverse.dropWhile pyWs).reverse =
      ((cs.dropWhile pyWs).reverse.dropWhile pyWs).reverse
    rcases List.eq_nil_or_concat
        ((cs.dropWhile pyWs).reverse.dropWhile pyWs) with h0 | h0
    · rw [h0]
      rfl
    · obtain ⟨m, a, hconc⟩ := h0
      obtain ⟨pre, hpre⟩ :=
        (List.dropWhile_suffix pyWs :
          ((cs.dropWhile pyWs).reverse.dropWhile pyWs) <:+
            (cs.dropWhile pyWs).reverse)
      rw [hconc] at hpre
      have hu : cs.dropWhile pyWs = a :: (m.reverse ++ pre.reverse) := by
        have h2 := congrArg List.reverse hpre
        simpa [List.concat_eq_append] using h2.symm
      have ha : pyWs a = false := dropWhile_head_eq_false hu
      rw [hconc]
      rw [show (m.concat a).reverse = a :: m.reverse from by
        simp [List.concat_eq_append]]
      rw [List.dropWhile_cons, if_neg (by simp [ha])]
  · show (stripC cs).reverse.dropWhile pyWs = (stripC cs).reverse
    have hrev : (stripC cs).reverse =
        (cs.dropWhile pyWs).reverse.dropWhile pyWs := by
      unfold stripC
      rw [List.reverse_reverse]
    rw [hrev]
    exact dropWhile_idem _ _

/-- `stripC` only removes characters: its output is an infix. -/
theorem stripC_infijo (cs : Chars) : stripC cs <:+: cs := by
  obtain ⟨pre, hpre⟩ :=
    (List.dropWhile_suffix pyWs :
      ((cs.dropWhile pyWs).reverse.dropWhile pyWs) <:+
        (cs.dropWhile pyWs).reverse)
  have hpref : stripC cs <+: cs.dropWhile pyWs := by
    refine ⟨pre.reverse, ?_⟩
    have h2 := congrArg List.reverse hpre
    simpa using h2
  exact List.IsInfix.trans hpref.isInfix
    (List.IsSuffix.isInfix (List.dropWhile_suffix pyWs))

/-- A non-whitespace head survives `collapseF` as the head. -/
theorem collapseF_head (fuel : ℕ) (d : Char) (r : Chars)
    (hd : isHWs d = false) :
    ∃ r2, collapseF fuel (d :: r) = d :: r2 := by
  cases fuel with
  | zero => exact ⟨r, rfl⟩
  | succ fuel => exact ⟨collapseF fuel r, by simp [collapseF, hd]⟩

/-- With enough fuel, `collapseF` outputs a `collapsedOK` string. -/
theorem collapseF_collapsedOK :
    ∀ (fuel : ℕ) (cs : Chars), cs.length ≤ fuel →
      collapsedOK (collapseF fuel cs) := by
  intro fuel
  induction fuel with
  | zero =>
    intro cs h
    have h0 : cs = [] := List.length_eq_zero.mp (Nat.le_zero.mp h)
    subst h0
    rw [show collapseF 0 ([] : Chars) = [] from rfl]
    exact ⟨by simp, List.chain'_nil⟩
  | succ fuel ih =>
    intro cs h
    match cs with
    | [] =>
      rw [show collapseF (fuel + 1) ([] : Chars) = [] from rfl]
      exact ⟨by simp, List.chain'_nil⟩
    | c :: r =>
      by_cases hc : isHWs c = true
      · rw [show collapseF (fuel + 1) (c :: r) =
            ' ' :: collapseF fuel (r.dropWhile isHWs) from by
          simp [collapseF, hc]]
        have hlen : (r.dropWhile isHWs).length ≤ fuel :=
          le_trans ((List.dropWhile_suffix _).sublist.length_le)
            (Nat.le_of_succ_le_succ h)
        have hrec := ih (r.dropWhile isHWs) hlen
        constructor
        · intro x hx hxh
          rcases List.mem_cons.mp hx with h1 | h2
          · exact h1
          · exact hrec.1 x h2 hxh
        · rw [List.chain'_cons']
          refine ⟨?_, hrec.2⟩
          intro b hb
          rintro ⟨_, hb2⟩
          cases hws : r.dropWhile isHWs with
          | nil =>
            rw [hws] at hb
            cases fuel <;> simp [collapseF] at hb
          | cons d r2 =>
            have hd : isHWs d = false := dropWhile_head_eq_false hws
            rw [hws] at hb
            obtain ⟨r3, h3⟩ := collapseF_head fuel d r2 hd
            rw [h3] at hb
            simp at hb
            subst hb
            simp [hd] at hb2
      · rw [show collapseF (fuel + 1) (c :: r) =
            c :: collapseF fuel r from by simp [collapseF, hc]]
        have hrec := ih r (Nat.le_of_succ_le_succ h)
        constructor
        · intro x hx hxh
          rcases List.mem_cons.mp hx with h1 | h2
          · subst h1
            exact absurd hxh hc
          · exact hrec.1 x h2 hxh
        · rw [List.chain'_cons']
          exact ⟨fun b _ hcontra => hc hcontra.1, hrec.2⟩

/-- `collapseF` is the identity on `collapsedOK` strings, any fuel. -/
theorem collapseF_eq_of_collapsedOK :
    ∀ (fuel : ℕ) (cs : Chars), collapsedOK cs → collapseF fuel cs = cs := by
  intro fuel
  induction fuel with
  | zero => intro cs _; cases cs <;> rfl
  | succ fuel ih =>
    intro cs h
    match cs with
    | [] => rfl
    | c :: r =>
      have htail : collapsedOK r :=
        ⟨fun x hx => h.1 x (List.mem_cons_of_mem _ hx), h.2.tail⟩
      by_cases hc : isHWs c = true
      · have hcsp : c = ' ' := h.1 c (by simp) hc
        have hdrop : r.dropWhile isHWs = r := by
          cases r with
          | nil => rfl
          | cons d r2 =>
            have hrel : ¬(isHWs c = true ∧ isHWs d = true) :=
              (List.chain'_cons'.mp h.2).1 d (by simp)
            have hd : isHWs d = false := by
              rcases Bool.eq_false_or_eq_true (isHWs d) with h1 | h1
              · exact absurd ⟨hc, h1⟩ hrel
              · exact h1
            rw [List.dropWhile_cons, if_neg (by simp [hd])]
        rw [show collapseF (fuel + 1) (c :: r) =
            ' ' :: collapseF fuel (r.dropWhile isHWs) from by
          simp [collapseF, hc]]
        rw [hdrop, ih r htail, hcsp]
      · rw [show collapseF (fuel + 1) (c :: r) =
            c :: collapseF fuel r from by simp [collapseF, hc]]
        rw [ih r htail]

/-- `collapsedOK` is preserved by taking infixes. -/
theorem collapsedOK_infijo {l m : Chars} (h : collapsedOK l)
    (hinf : m <:+: l) : collapsedOK m :=
  ⟨fun c hc => h.1 c (hinf.subset hc), List.Chain'.infix h.2 hinf⟩

/-- The output of `cleanLine` is `collapsedOK`. -/
theorem collapsedOK_cleanLine (l : Chars) : collapsedOK (cleanLine l) :=
  collapsedOK_infijo (collapseF_collapsedOK l.length l le_rfl)
    (stripC_infijo (collapseHWs l))

/-- Per-line cleanup is idempotent. -/
theorem cleanLine_idem (l : Chars) : cleanLine (cleanLine l) = cleanLine l := by
  show stripC (collapseHWs (cleanLine l)) = cleanLine l
  rw [show collapseHWs (cleanLine l) = cleanLine l from
    collapseF_eq_of_collapsedOK _ _ (collapsedOK_cleanLine l)]
  exact stripC_eq_of_strippedOK _ (strippedOK_stripC (collapseHWs l))

/-- Characters of a `collapseF` output: an inserted space or an input
character. -/
theorem mem_collapseF :
    ∀ (fuel : ℕ) (cs : Chars) (c : Char),
      c ∈ collapseF fuel cs → c = ' ' ∨ c ∈ cs := by
  intro fuel
  induction fuel with
  | zero =>
    intro cs c hc
    rw [show collapseF 0 cs = cs from by cases cs <;> rfl] at hc
    exact Or.inr hc
  | succ fuel ih =>
    intro cs c hc
    match cs with
    | [] => exact Or.inr hc
    | d :: r =>
      by_cases hd : isHWs d = true
      · rw [show collapseF (fuel + 1) (d :: r) =
            ' ' :: collapseF fuel (r.dropWhile isHWs) from by
          simp [collapseF, hd]] at hc
        rcases List.mem_cons.mp hc with h1 | h2
        · exact Or.inl h1
        · rcases ih _ c h2 with h3 | h3
          · exact Or.inl h3
          · exact Or.inr (List.mem_cons_of_mem _
              ((List.dropWhile_suffix _).sublist.subset h3))
      · rw [show collapseF (fuel + 1) (d :: r) =
            d :: collapseF fuel r from by simp [collapseF, hd]] at hc
        rcases List.mem_cons.mp hc with h1 | h2
        · exact Or.inr (h1 ▸ List.mem_cons_self _ _)
        · rcases ih r c h2 with h3 | h3
          · exact Or.inl h3
          · exact Or.inr (List.mem_cons_of_mem _ h3)

/-- Characters survive `stripC` only from the input. -/
theorem mem_stripC {c : Char} {cs : Chars} (h : c ∈ stripC cs) : c ∈ cs :=
  (stripC_infijo cs).subset h

/-- `cleanLine` introduces no line break. -/
theorem nl_not_mem_cleanLine {l : Chars} (h : '\n' ∉ l) :
    '\n' ∉ cleanLine l := by
  intro hc
  rcases mem_collapseF l.length l '\n' (mem_stripC hc) with h1 | h1
  · exact absurd h1 (by decide)
  · exact h h1

/-- `splitOnC` never returns the empty list of segments. -/
theorem splitOnC_ne_nil (sep : Char) : ∀ cs : Chars, splitOnC sep cs ≠ [] := by
  intro cs
  induction cs with
  | nil => simp [splitOnC]
  | cons c r ih =>
    cases hr : splitOnC sep r with
    | nil => exact absurd hr ih
    | cons l ls =>
      by_cases hc : c = sep
      · simp [splitOnC, hc]
      · simp [splitOnC, hc, hr]

/-- Segments produced by `splitOnC` do not contain the separator. -/
theorem not_mem_splitOnC (sep : Char) :
    ∀ (cs l : Chars), l ∈ splitOnC sep cs → sep ∉ l := by
  intro cs
  induction cs with
  | nil =>
    intro l hl
    simp [splitOnC] at hl
    subst hl
    simp
  | cons c r ih =>
    intro l hl
    by_cases hc : c = sep
    · rw [show splitOnC sep (c :: r) = [] :: splitOnC sep r from by
        simp [splitOnC, hc]] at hl
      rcases List.mem_cons.mp hl with h1 | h2
      · subst h1; simp
      · exact ih l h2
    · cases hr : splitOnC sep r with
      | nil => exact absurd hr (splitOnC_ne_nil sep r)
      | cons m ms =>
        rw [show splitOnC sep (c :: r) = (c :: m) :: ms from by
          simp [splitOnC, hc, hr]] at hl
        rcases List.mem_cons.mp hl with h1 | h2
        · subst h1
          intro hmem
          rcases List.mem_cons.mp hmem with h3 | h4
          · exact hc h3.symm
          · exact ih m (by rw [hr]; exact List.mem_cons_self m ms) h4
        · exact ih l (by rw [hr]; exact List.mem_cons_of_mem _ h2)

/-- A separator-free string is a single segment. -/
theorem splitOnC_eq_single (sep : Char) :
    ∀ cs : Chars, sep ∉ cs → splitOnC sep cs = [cs] := by
  intro cs
  induction cs with
  | nil => intro _; rfl
  | cons c r ih =>
    intro h
    have hc : c ≠ sep := fun he => h (he ▸ List.mem_cons_self _ _)
    simp [splitOnC, hc, ih (fun hm => h (List.mem_cons_of_mem _ hm))]

/-- Splitting past a separator-free prefix. -/
theorem splitOnC_append (sep : Char) :
    ∀ (xs zs : Chars), sep ∉ xs →
      ∀ (h : Chars) (t2 : List Chars), splitOnC sep zs = h :: t2 →
        splitOnC sep (xs ++ zs) = (xs ++ h) :: t2 := by
  intro xs
  induction xs with
  | nil =>
    intro zs _ h t2 hz
    simpa using hz
  | cons x xr ih =>
    intro zs hx h t2 hz
    have hxs : x ≠ sep := fun he => hx (he ▸ List.mem_cons_self _ _)
    have hrest := ih zs (fun hm => hx (List.mem_cons_of_mem _ hm)) h t2 hz
    rw [List.cons_append]
    cases hr : splitOnC sep (xr ++ zs) with
    | nil => exact absurd hr (splitOnC_ne_nil _ _)
    | cons m ms =>
      rw [show splitOnC sep (x :: (xr ++ zs)) = (x :: m) :: ms from by
        simp [splitOnC, hxs, hr]]
      rw [hr] at hrest
      injection hrest with h1 h2
      subst h1
      subst h2
      rfl

/-- Splitting a join of separator-free segments recovers the segments. -/
theorem splitOn_join (sep : Char) :
    ∀ ls : List Chars, ls ≠ [] → (∀ l ∈ ls, sep ∉ l) →
      splitOnC sep (joinWithC [sep] ls) = ls := by
  intro ls
  induction ls with
  | nil => intro h _; exact absurd rfl h
  | cons l ls ih =>
    intro _ hmem
    cases ls with
    | nil => exact splitOnC_eq_single sep l (hmem l (List.mem_cons_self _ _))
    | cons l2 ls2 =>
      have hjoin : joinWithC [sep] (l :: l2 :: ls2) =
          l ++ sep :: joinWithC [sep] (l2 :: ls2) := by
        show l ++ [sep] ++ joinWithC [sep] (l2 :: ls2) = _
        simp
      rw [hjoin]
      have hih := ih (by simp) (fun m hm => hmem m (List.mem_cons_of_mem _ hm))
      have hz : splitOnC sep (sep :: joinWithC [sep] (l2 :: ls2)) =
          [] :: splitOnC sep (joinWithC [sep] (l2 :: ls2)) := by
        simp [splitOnC]
      rw [splitOnC_append sep l (sep :: joinWithC [sep] (l2 :: ls2))
        (hmem l (List.mem_cons_self _ _)) []
        (splitOnC sep (joinWithC [sep] (l2 :: ls2))) hz]
      rw [List.append_nil, hih]

/-- Mapping a function that fixes every member is the identity. -/
theorem map_fixes_id (f : Chars → Chars) :
    ∀ (ms : List Chars), (∀ m ∈ ms, f m = m) → ms.map f = ms := by
  intro ms
  induction ms with
  | nil => intro _; rfl
  | cons a as iha =>
    intro h
    simp [h a (by simp), iha (fun m hm => h m (List.mem_cons_of_mem _ hm))]

/-- The line-assembly step of the normalizer is idempotent. -/
theorem step8_idem (u : Chars) : step8 (step8 u) = step8 u := by
  have hmem1 : ∀ l ∈ ((splitOnC '\n' u).map cleanLine).filter
      (fun l => ¬ l.isEmpty), ('\n' ∉ l) ∧ cleanLine l = l := by
    intro l hl
    have hl2 : l ∈ (splitOnC '\n' u).map cleanLine := List.mem_of_mem_filter hl
    rcases List.mem_map.mp hl2 with ⟨l0, hl0, hcl⟩
    have hnl0 : '\n' ∉ l0 := not_mem_splitOnC '\n' u l0 hl0
    exact ⟨hcl ▸ nl_not_mem_cleanLine hnl0, hcl ▸ cleanLine_idem l0⟩
  cases hls : ((splitOnC '\n' u).map cleanLine).filter
      (fun l => ¬ l.isEmpty) with
  | nil =>
    have h0 : step8 u = [] := by
      unfold step8
      rw [hls]
      rfl
    rw [h0]
    rfl
  | cons l ls2 =>
    have hnomem : ∀ m ∈ l :: ls2, '\n' ∉ m := by
      intro m hm
      exact (hmem1 m (by rw [hls]; exact hm)).1
    have hclean : ∀ m ∈ l :: ls2, cleanLine m = m := by
      intro m hm
      exact (hmem1 m (by rw [hls]; exact hm)).2
    have hsplit := splitOn_join '\n' (l :: ls2) (by simp) hnomem
    have h0 : step8 u = joinWithC ['\n'] (l :: ls2) := by
      unfold step8
      rw [hls]
    rw [h0]
    unfold step8
    rw [hsplit, map_fixes_id cleanLine _ hclean]
    have hfil : (l :: ls2).filter (fun l => ¬ l.isEmpty) = l :: ls2 := by
      apply List.filter_eq_self.mpr
      intro a ha
      have ha3 : a ∈ ((splitOnC '\n' u).map cleanLine).filter
          (fun l => ¬ l.isEmpty) := by
        rw [hls]
        exact ha
      simpa using List.of_mem_filter ha3
    rw [hfil]

/-- `step8` drops a leading empty line. -/
theorem step8_cons_nl (t : Chars) : step8 ('\n' :: t) = step8 t := by
  unfold step8
  rw [show splitOnC '\n' ('\n' :: t) = [] :: splitOnC '\n' t from by
    simp [splitOnC]]
  rw [List.map_cons, List.filter_cons]
  rw [show cleanLine [] = ([] : Chars) from rfl]
  simp

/-- `step7` passes a leading line break through unchanged. -/
theorem step7_cons_nl (t : Chars) : step7 ('\n' :: t) = '\n' :: step7 t := rfl

end Extracto

namespace Extracto

/-- C5 counterexample: on "15/03/0024/03/2024" the normalizer is not
idempotent — the first pass rewrites the leading "15/03/0024" to
"15.03.0024", which exposes the overlapping slash date "24/03/2024" to
the second pass, giving "15.03.0024.03.2024". -/
theorem C5_counterexample :
    normalizarTexto (normalizarTexto entradaNoIdem) ≠
      normalizarTexto entradaNoIdem := by
  decide

/-- C5 amended: normalization is idempotent on every input whose
normalized form is a fixed point of the character-level rewrite steps
2–7 (line endings, non-breaking spaces, dashes, slash dates, PROXIMO;
the date line-breaker may re-fire exactly once at the very start, where
the look-behind cannot see a previous line break) — the final
line-assembly step is idempotent on its own image unconditionally.  The
counterexample shows the slash-date rewrite (step 5) can genuinely
re-fire, so the unconditional claim fails. -/
theorem C5_normalizar_fijo (s : String)
    (h2 : step2 (normalizarTexto s).toList = (normalizarTexto s).toList)
    (h3 : step3 (normalizarTexto s).toList = (normalizarTexto s).toList)
    (h4 : step4 (normalizarTexto s).toList = (normalizarTexto s).toList)
    (h5 : step5 (normalizarTexto s).toList = (normalizarTexto s).toList)
    (h6 : step6 (normalizarTexto s).toList = (normalizarTexto s).toList ∨
      step6 (normalizarTexto s).toList =
        '\n' :: (normalizarTexto s).toList)
    (h7 : step7 (normalizarTexto s).toList = (normalizarTexto s).toList) :
    normalizarTexto (normalizarTexto s) = normalizarTexto s := by
  have htl : (normalizarTexto s).toList = normalizarTextoC s.toList := rfl
  rw [htl] at h2 h3 h4 h5 h6 h7
  show String.mk (normalizarTextoC (normalizarTextoC s.toList)) =
    String.mk (normalizarTextoC s.toList)
  congr 1
  set t := normalizarTextoC s.toList with ht
  by_cases h0 : t = []
  · rw [h0]
    rfl
  · have h8 : step8 t = t := by
      by_cases hs : s.toList = []
      · have hnil : t = [] := by
          rw [ht]
          unfold normalizarTextoC
          rw [if_pos hs]
        exact absurd hnil h0
      · obtain ⟨u, hu⟩ : ∃ u, t = step8 u := by
          refine ⟨step7 (step6 (step5 (step4 (step3 (step2
            (nfkc s.toList)))))), ?_⟩
          rw [ht]
          unfold normalizarTextoC
          rw [if_neg hs]
        rw [hu]
        exact step8_idem u
    rw [show normalizarTextoC t =
        step8 (step7 (step6 (step5 (step4 (step3 (step2 (nfkc t)))))))
      from by unfold normalizarTextoC; rw [if_neg h0]]
    rw [show nfkc t = t from rfl, h2, h3, h4, h5]
    rcases h6 with h6 | h6
    · rw [h6, h7]
      exact h8
    · rw [h6, step7_cons_nl, h7, step8_cons_nl]
      exact h8

/-- Witness for C5: the fixed-point hypotheses hold on the concrete
input and the amended theorem yields idempotence there. -/
theorem C5_witness :
    (step2 (normalizarTexto entradaIdem).toList =
        (normalizarTexto entradaIdem).toList ∧
      step5 (normalizarTexto entradaIdem).toList =
        (normalizarTexto entradaIdem).toList ∧
      step6 (normalizarTexto entradaIdem).toList =
        '\n' :: (normalizarTexto entradaIdem).toList) ∧
    normalizarTexto (normalizarTexto entradaIdem) =
      normalizarTexto entradaIdem :=
  ⟨⟨by decide, by decide, by decide⟩,
    C5_normalizar_fijo entradaIdem (by decide) (by decide) (by decide)
      (by decide) (Or.inr (by decide)) (by decide)⟩

end Extracto
